import Mathlib

/-!
# jftui: relay channel, request lifecycle, SAX helper macros, playback progress

A shallow embedding of `src/net.c`, `src/network.c`, the macros of `src/json.h` and the
progress update of `src/main.c`.

Conventions of the embedding

* a `char` is a `Nat` (its code), `0` is NUL; a C buffer is the list of its bytes;
* a C string value (the result of `strndup`, a reply payload) is the list of the bytes
  before its terminator;
* `size_t` offsets and lengths that index one object are `Nat`;
* a blocking call (`pthread_mutex_lock` on a held mutex, `pthread_cond_wait` that is never
  answered) is a missing step: functions that may block return `Option`;
* the parser thread is the environment: it acts on the channel only while the mutex is
  free, and what it does during the successive `pthread_cond_wait`s of the transfer thread
  is given by a family of updates indexed by the number of the wait.
-/

namespace Jftui

/-! ## shared declarations used by `net.c` and `network.c` -/

/-- Modelled from the spec: the channel states. The enum is declared in `shared.h`, which is
not among the sources; `net.c` names four values (CLEAR, AWAITING_DATA, PENDING_DATA,
PARSER_ERROR, the spec's EMPTY / HAS_DATA / ERROR), any further value is `OTHER`. -/
inductive jf_thread_buffer_state where
  | CLEAR
  | AWAITING_DATA
  | PENDING_DATA
  | PARSER_ERROR
  | OTHER (code : Nat)
  deriving DecidableEq, Repr

/-- Modelled from the spec: the relay channel `jf_thread_buffer` (declared in `shared.h`):
the members that `net.c` and `network.c` read or write. `mut_locked` is `true` while the mutex is
held; the condition variables carry no data. -/
structure jf_thread_buffer where
  data : List Nat
  used : Nat
  promiscuous_context : Bool
  state : jf_thread_buffer_state
  item_count : Nat
  parsed_ids : List Nat
  mut_locked : Bool
  deriving DecidableEq, Repr

/-- The reply of a request: `payload` is `none` for a NULL pointer and otherwise the bytes of
the string, `size` is a byte count or a negative error code. -/
structure jf_reply where
  payload : Option (List Nat)
  size : Int
  deriving DecidableEq, Repr

/-- Modelled from the spec: the error codes stored in `jf_reply.size`. The `JF_REPLY_ERROR_*`
constants are defined in `shared.h`; their values are parameters here. -/
structure jf_reply_error_codes where
  STUB : Int
  HTTP_401 : Int
  MALLOC : Int
  CONCAT : Int
  X_EMBY_AUTH : Int
  NETWORK : Int
  HTTP_NOT_OK : Int
  PARSER : Int
  deriving DecidableEq, Repr

/-- What the C compiler and `jf_reply_error_string` require of the error codes: all are
negative (a size `>= 0` means "no error") and the `case` labels of one `switch` are distinct. -/
def jf_reply_error_codes.valid (k : jf_reply_error_codes) : Prop :=
  [k.STUB, k.HTTP_401, k.MALLOC, k.CONCAT, k.X_EMBY_AUTH, k.NETWORK, k.HTTP_NOT_OK,
    k.PARSER].Nodup ∧
  ∀ c ∈ [k.STUB, k.HTTP_401, k.MALLOC, k.CONCAT, k.X_EMBY_AUTH, k.NETWORK, k.HTTP_NOT_OK,
    k.PARSER], c < 0

instance (k : jf_reply_error_codes) : Decidable k.valid := by
  unfold jf_reply_error_codes.valid; infer_instance

/-- A sample assignment of the error codes, used to evaluate the model on concrete inputs. -/
def sample_codes : jf_reply_error_codes :=
  { STUB := -1, HTTP_401 := -2, MALLOC := -3, CONCAT := -4, X_EMBY_AUTH := -5,
    NETWORK := -6, HTTP_NOT_OK := -7, PARSER := -8 }

/-- Modelled from the spec: `JF_REPLY_PTR_HAS_ERROR` (a macro of `shared.h`): a reply carries an
error exactly when its size is negative, the test `jf_reply_error_string` itself makes. -/
def JF_REPLY_PTR_HAS_ERROR (r : jf_reply) : Bool := decide (r.size < 0)

/-- The bytes of a C string literal. -/
def cstr (s : String) : List Nat := s.toList.map Char.toNat

/-- The libc `strndup(s, n)`: the bytes of `s` up to its first NUL, at most `n` of them.
`s` is the memory from the pointer on. (Allocation is taken to succeed.) -/
def strndup (s : List Nat) (n : Nat) : List Nat := (s.take n).takeWhile (fun b => b != 0)

/-- The libc `memcpy(dst, src, n)` on the buffer `dst`: the first `n` bytes are replaced by
the first `n` bytes of `src`. -/
def memcpy (dst src : List Nat) (n : Nat) : List Nat := src.take n ++ dst.drop n

namespace Net

/-! ## `net.c`: parser thread communication -/

/-- Where the transfer thread stands inside `jf_thread_buffer_callback`:
`entry` before `pthread_mutex_lock`, `outer` at the test of the outer `while`, `inner` at the
test of the inner `while` (mutex held), `waiting` inside `pthread_cond_wait` (mutex released),
`returned n` after `return n`. -/
inductive callback_pc where
  | entry
  | outer
  | inner
  | waiting
  | returned (ret : Nat)
  deriving DecidableEq, Repr

/-- The state of one call of `jf_thread_buffer_callback`: program point, the local
`written_data`, the global `s_tb` and the reply `*r`. -/
structure callback_config where
  pc : callback_pc
  written_data : Nat
  s_tb : jf_thread_buffer
  r : jf_reply
  deriving DecidableEq, Repr

/-- What a step does to the slot: nothing, a deposit (with the chunk left in the slot, the
first `s_tb.used` bytes of `s_tb.data` after the write), or an action of the parser thread. -/
inductive callback_event where
  | silent
  | write (chunk : List Nat)
  | consumer
  deriving DecidableEq, Repr

/-- Line 132: `chunk_size = real_size - written_data < D - 1 ? real_size - written_data : D - 2`
with `D = JF_THREAD_BUFFER_DATA_SIZE` (a constant of `shared.h`, a parameter here). -/
def chunk_size (D real_size written_data : Nat) : Nat :=
  if real_size - written_data < D - 1 then real_size - written_data else D - 2

/-- Lines 133-137: the deposit of one chunk into the slot. -/
def send_data (D : Nat) (payload : List Nat) (real_size written_data : Nat)
    (tb : jf_thread_buffer) : jf_thread_buffer :=
  let n := chunk_size D real_size written_data
  { tb with
    data := (memcpy tb.data (payload.drop written_data) n).set (n + 1) 0
    used := n
    state := jf_thread_buffer_state.PENDING_DATA }

/-- One step of the transfer thread in `jf_thread_buffer_callback` (lines 119-142).
`none` when the thread cannot move: the call has returned, or it is blocked in
`pthread_mutex_lock` on a held mutex. -/
def callback_step (k : jf_reply_error_codes) (D : Nat) (payload : List Nat) (real_size : Nat)
    (c : callback_config) : Option (callback_event × callback_config) :=
  match c.pc with
  | .entry =>
    -- pthread_mutex_lock(&s_tb.mut)
    if c.s_tb.mut_locked then none
    else some (.silent, { c with pc := .outer, s_tb := { c.s_tb with mut_locked := true } })
  | .outer =>
    if c.written_data < real_size then some (.silent, { c with pc := .inner })
    else
      -- pthread_mutex_unlock(&s_tb.mut); return written_data
      some (.silent, { c with pc := .returned c.written_data,
                              s_tb := { c.s_tb with mut_locked := false } })
  | .inner =>
    if c.s_tb.state = .PENDING_DATA then
      -- pthread_cond_wait releases the mutex
      some (.silent, { c with pc := .waiting, s_tb := { c.s_tb with mut_locked := false } })
    else if c.s_tb.state = .PARSER_ERROR then
      some (.silent, { c with pc := .returned 0,
                              r := { payload := some (strndup c.s_tb.data c.s_tb.used),
                                     size := k.PARSER } })
    else
      let tb := send_data D payload real_size c.written_data c.s_tb
      some (.write (tb.data.take tb.used),
            { c with pc := .outer,
                     written_data := c.written_data + chunk_size D real_size c.written_data,
                     s_tb := tb })
  | .waiting =>
    -- pthread_cond_wait returns with the mutex held again
    if c.s_tb.mut_locked then none
    else some (.silent, { c with pc := .inner, s_tb := { c.s_tb with mut_locked := true } })
  | .returned _ => none

/-- An action of the parser thread on the channel: it takes and releases the mutex, so the
mutex is as it was. -/
def parser_acts (f : jf_thread_buffer → jf_thread_buffer) (tb : jf_thread_buffer) :
    jf_thread_buffer :=
  { f tb with mut_locked := tb.mut_locked }

/-- The result of a completed call of `jf_thread_buffer_callback`. -/
structure callback_result where
  ret : Nat
  s_tb : jf_thread_buffer
  r : jf_reply
  deposits : List (List Nat)
  waits : Nat
  deriving DecidableEq, Repr

/-- Runs the transfer thread until the call returns. `parser i` is what the parser thread does
to the channel during the `i`-th `pthread_cond_wait` from now; `deposits` collects the chunks
written and `waits` counts the waits. `none`: blocked, or out of `fuel`. -/
def callback_run (k : jf_reply_error_codes) (D : Nat) (payload : List Nat) (real_size : Nat) :
    Nat → (Nat → jf_thread_buffer → jf_thread_buffer) → callback_config → List (List Nat) →
    Nat → Option callback_result
  | 0, _, _, _, _ => none
  | fuel + 1, parser, c, deposits, waits =>
    match c.pc with
    | .returned ret => some { ret := ret, s_tb := c.s_tb, r := c.r, deposits := deposits,
                              waits := waits }
    | .waiting =>
      match callback_step k D payload real_size
          { c with s_tb := parser_acts (parser 0) c.s_tb } with
      | none => none
      | some (_, c') =>
        callback_run k D payload real_size fuel (fun i => parser (i + 1)) c' deposits
          (waits + 1)
    | _ =>
      match callback_step k D payload real_size c with
      | none => none
      | some (.write chunk, c') =>
        callback_run k D payload real_size fuel parser c' (deposits ++ [chunk]) waits
      | some (_, c') => callback_run k D payload real_size fuel parser c' deposits waits

/-- The function `jf_thread_buffer_callback(payload, size, nmemb, userdata)` of `net.c`
(lines 112-143), with `real_size = size * nmemb` in `size_t`. -/
def jf_thread_buffer_callback (k : jf_reply_error_codes) (D fuel : Nat)
    (parser : Nat → jf_thread_buffer → jf_thread_buffer)
    (payload : List Nat) (size nmemb : Nat) (r : jf_reply) (s_tb : jf_thread_buffer) :
    Option callback_result :=
  callback_run k D payload ((size * nmemb) % 2 ^ 64) fuel parser
    { pc := .entry, written_data := 0, s_tb := s_tb, r := r } [] 0

/-- The step relation of the channel while a call of `jf_thread_buffer_callback` is in
progress: either the transfer thread takes its next step, or the parser thread acts. The
parser thread changes `s_tb` under the mutex, so it acts only while the mutex is free (the
transfer thread is before its lock, inside `pthread_cond_wait`, or past its unlock) and
leaves the mutex free; what it does to the other members is arbitrary. -/
def channel_step (k : jf_reply_error_codes) (D : Nat) (payload : List Nat) (real_size : Nat)
    (c : callback_config) (ev : callback_event) (c' : callback_config) : Prop :=
  callback_step k D payload real_size c = some (ev, c') ∨
  (ev = .consumer ∧ c.s_tb.mut_locked = false ∧ c'.s_tb.mut_locked = false ∧
    c'.pc = c.pc ∧ c'.written_data = c.written_data ∧ c'.r = c.r)

instance (k : jf_reply_error_codes) (D : Nat) (payload : List Nat) (real_size : Nat)
    (c : callback_config) (ev : callback_event) (c' : callback_config) :
    Decidable (channel_step k D payload real_size c ev c') := by
  unfold channel_step; infer_instance

/-- One transition of an interleaving: the configuration before, the event, the
configuration after. -/
structure transition where
  pre : callback_config
  ev : callback_event
  post : callback_config
  deriving DecidableEq, Repr

/-- An interleaving of the transfer thread with the parser thread: every transition is a
step of the channel and each one starts where the previous one ended. -/
def interleaving (k : jf_reply_error_codes) (D : Nat) (payload : List Nat) (real_size : Nat) :
    List transition → Prop
  | [] => True
  | [x] => channel_step k D payload real_size x.pre x.ev x.post
  | x :: y :: rest =>
    channel_step k D payload real_size x.pre x.ev x.post ∧ x.post = y.pre ∧
      interleaving k D payload real_size (y :: rest)

/-- The body of the loop of `jf_thread_buffer_wait_parsing_done` (lines 96-108), the mutex
held: wait while the state is AWAITING_DATA or PENDING_DATA, otherwise unlock and return. -/
def wait_parsing_loop :
    Nat → (Nat → jf_thread_buffer → jf_thread_buffer) → jf_thread_buffer →
    Option jf_thread_buffer
  | 0, _, _ => none
  | fuel + 1, parser, tb =>
    match tb.state with
    | .AWAITING_DATA =>
      wait_parsing_loop fuel (fun i => parser (i + 1)) (parser_acts (parser 0) tb)
    | .PENDING_DATA =>
      wait_parsing_loop fuel (fun i => parser (i + 1)) (parser_acts (parser 0) tb)
    | _ => some { tb with mut_locked := false }

/-- The function `jf_thread_buffer_wait_parsing_done` (lines 93-109). `parser i` is what the
parser thread does during the `i`-th wait. `none`: blocked, or out of `fuel`. -/
def jf_thread_buffer_wait_parsing_done (fuel : Nat)
    (parser : Nat → jf_thread_buffer → jf_thread_buffer) (s_tb : jf_thread_buffer) :
    Option jf_thread_buffer :=
  if s_tb.mut_locked then none
  else wait_parsing_loop fuel parser { s_tb with mut_locked := true }

/-- The function `jf_thread_buffer_item_count` (lines 146-149). -/
def jf_thread_buffer_item_count (s_tb : jf_thread_buffer) : Nat := s_tb.item_count

/-- The function `jf_thread_buffer_clear_error` (lines 152-159). `none`: blocked in
`pthread_mutex_lock`. -/
def jf_thread_buffer_clear_error (s_tb : jf_thread_buffer) : Option jf_thread_buffer :=
  if s_tb.mut_locked then none
  else some { s_tb with
    data := s_tb.data.set 0 0
    used := 0
    state := jf_thread_buffer_state.CLEAR
    mut_locked := false }

/-! ## `net.c`: replies and requests -/

/-- The function `jf_reply_new` (lines 27-34). -/
def jf_reply_new : jf_reply := { payload := none, size := 0 }

/-- The function `jf_reply_error_string` (lines 46-75); the argument is `none` for a NULL
reply, the result is `none` when the returned pointer is NULL. -/
def jf_reply_error_string (k : jf_reply_error_codes) : Option jf_reply → Option (List Nat)
  | none => some (cstr "jf_reply is NULL")
  | some r =>
    if r.size ≥ 0 then some (cstr "no error")
    else if r.size = k.STUB then some (cstr "stub functionality")
    else if r.size = k.HTTP_401 then
      some (cstr ("http request returned error 401: unauthorized; " ++
        "you likely need to renew your auth token. Restart with --login"))
    else if r.size = k.MALLOC then some (cstr "memory allocation failed")
    else if r.size = k.CONCAT then some (cstr "string concatenation failed")
    else if r.size = k.X_EMBY_AUTH then some (cstr "appending x-emby-authorization failed")
    else if r.size = k.NETWORK ∨ r.size = k.HTTP_NOT_OK ∨ r.size = k.PARSER then r.payload
    else some (cstr "unknown error. This is a bug")

/-- The function `jf_reply_callback` (lines 78-88): the in-memory write callback. -/
def jf_reply_callback (payload : List Nat) (size nmemb : Nat) (reply : jf_reply) :
    Nat × jf_reply :=
  let real_size := (size * nmemb) % 2 ^ 64
  (real_size,
    { payload := some ((reply.payload.getD []).take reply.size.toNat ++ payload.take real_size)
      size := reply.size + real_size })

/-- The request types named in `jf_net_request` (the enum is declared in `shared.h`). -/
inductive jf_request_type where
  | JF_REQUEST_IN_MEMORY
  | JF_REQUEST_SAX_PROMISCUOUS
  | JF_REQUEST_SAX
  deriving DecidableEq, Repr

/-- The value of `CURLOPT_WRITEFUNCTION`. -/
inductive write_function where
  | jf_reply_callback
  | jf_thread_buffer_callback
  deriving DecidableEq, Repr

/-- What `jf_net_request` observes of a finished `curl_easy_perform`: the `CURLcode`
(`0` is `CURLE_OK`), the HTTP status reported by `curl_easy_getinfo`, and the channel and the
reply as the calls of the write callback left them. -/
structure curl_outcome where
  result : Nat
  status_code : Int
  s_tb : jf_thread_buffer
  reply : jf_reply
  deriving DecidableEq, Repr

/-- The collaborators of `jf_net_request`: libcurl (`curl_easy_perform` runs the transfer and
calls the write callback, `none` when it never returns; `curl_easy_strerror`) and the parser
thread after the transfer (`parser i` acts during the `i`-th wait of
`jf_thread_buffer_wait_parsing_done`, which is run with `fuel`). -/
structure net_env where
  curl_easy_perform : write_function → jf_thread_buffer → jf_reply → Option curl_outcome
  curl_easy_strerror : Nat → List Nat
  parser : Nat → jf_thread_buffer → jf_thread_buffer
  fuel : Nat

/-- Lines 260-273 of `jf_net_request`: the dispatch on the request type, which picks the write
callback and sets the consumption mode. -/
def request_dispatch (request_type : jf_request_type) (s_tb : jf_thread_buffer) :
    write_function × jf_thread_buffer :=
  match request_type with
  | .JF_REQUEST_IN_MEMORY => (.jf_reply_callback, s_tb)
  | .JF_REQUEST_SAX_PROMISCUOUS =>
    (.jf_thread_buffer_callback, { s_tb with promiscuous_context := true })
  | .JF_REQUEST_SAX =>
    (.jf_thread_buffer_callback, { s_tb with promiscuous_context := false })

/-- Line 298: `snprintf(reply->payload, 34, "http request returned status %ld", status_code)`. -/
def status_message (status_code : Int) : List Nat :=
  (cstr ("http request returned status " ++ toString status_code)).take 33

/-- Lines 288-301 of `jf_net_request`: the `switch` on the HTTP status. -/
def check_status (k : jf_reply_error_codes) (status_code : Int) (reply : jf_reply) : jf_reply :=
  if status_code = 200 ∨ status_code = 204 then reply
  else if status_code = 401 then { reply with size := k.HTTP_401 }
  else { payload := some (status_message status_code), size := k.HTTP_NOT_OK }

/-- Lines 275-304 of `jf_net_request`: what is done with the outcome of `curl_easy_perform`.
The result is the returned reply and the channel; `none` when
`jf_thread_buffer_wait_parsing_done` does not return. -/
def after_perform (k : jf_reply_error_codes) (env : net_env) (request_type : jf_request_type)
    (out : curl_outcome) : Option (jf_reply × jf_thread_buffer) :=
  if out.result ≠ 0 then
    -- don't overwrite error messages we've already set ourselves
    if !JF_REPLY_PTR_HAS_ERROR out.reply then
      some ({ payload := some (env.curl_easy_strerror out.result), size := k.NETWORK }, out.s_tb)
    else some (out.reply, out.s_tb)
  else
    match (if request_type = .JF_REQUEST_SAX_PROMISCUOUS ∨ request_type = .JF_REQUEST_SAX then
        jf_thread_buffer_wait_parsing_done env.fuel env.parser out.s_tb
      else some out.s_tb) with
    | none => none
    | some tb => some (check_status k out.status_code out.reply, tb)

/-- The function `jf_net_request` (lines 234-305); the URL, the POST payload and the headers
only reach libcurl and are part of `env`. The result is the returned reply and the channel
`s_tb` at the return; `none` when the call does not return. -/
def jf_net_request (k : jf_reply_error_codes) (env : net_env) (request_type : jf_request_type)
    (s_tb : jf_thread_buffer) : Option (jf_reply × jf_thread_buffer) :=
  let d := request_dispatch request_type s_tb
  match env.curl_easy_perform d.1 d.2 jf_reply_new with
  | none => none
  | some out => after_perform k env request_type out

instance interleaving_decidable (k : jf_reply_error_codes) (D : Nat) (payload : List Nat)
    (real_size : Nat) : (t : List transition) → Decidable (interleaving k D payload real_size t)
  | [] => isTrue trivial
  | [x] => inferInstanceAs (Decidable (channel_step k D payload real_size x.pre x.ev x.post))
  | x :: y :: rest =>
    have := interleaving_decidable k D payload real_size (y :: rest)
    inferInstanceAs (Decidable (channel_step k D payload real_size x.pre x.ev x.post ∧
      x.post = y.pre ∧ interleaving k D payload real_size (y :: rest)))

/-- The transitions of a run of `jf_thread_buffer_callback` against the parser thread
`parser`: the steps of `callback_run`, the parser acting once during each wait. -/
def callback_trace (k : jf_reply_error_codes) (D : Nat) (payload : List Nat) (real_size : Nat) :
    Nat → (Nat → jf_thread_buffer → jf_thread_buffer) → callback_config → List transition
  | 0, _, _ => []
  | fuel + 1, parser, c =>
    match c.pc with
    | .waiting =>
      let c1 := { c with s_tb := parser_acts (parser 0) c.s_tb }
      match callback_step k D payload real_size c1 with
      | none => [{ pre := c, ev := .consumer, post := c1 }]
      | some (ev, c2) =>
        { pre := c, ev := .consumer, post := c1 } :: { pre := c1, ev := ev, post := c2 } ::
          callback_trace k D payload real_size fuel (fun i => parser (i + 1)) c2
    | _ =>
      match callback_step k D payload real_size c with
      | none => []
      | some (ev, c') =>
        { pre := c, ev := ev, post := c' } :: callback_trace k D payload real_size fuel parser c'

/-! ## a sample transfer, to run the model on concrete inputs -/

/-- A transfer as libcurl runs it with `jf_thread_buffer_callback` as write callback: the body
arrives in blocks, each handed to the callback as `(block, 1, length)`; a callback that returns
another count than the block's length aborts the transfer. The result tells whether the
transfer was aborted, with the channel and the reply at that point. -/
def transfer_blocks (k : jf_reply_error_codes) (D fuel : Nat) :
    (Nat → jf_thread_buffer → jf_thread_buffer) → List (List Nat) → jf_thread_buffer →
    jf_reply → Option (Bool × jf_thread_buffer × jf_reply)
  | _, [], tb, r => some (false, tb, r)
  | parser, b :: bs, tb, r =>
    match jf_thread_buffer_callback k D fuel parser b 1 b.length r tb with
    | none => none
    | some res =>
      if res.ret ≠ b.length then some (true, res.s_tb, res.r)
      else transfer_blocks k D fuel (fun i => parser (i + res.waits)) bs res.s_tb res.r

/-- A sample `curl_easy_perform`: the body `blocks` is delivered to the write callback and the
server answers with `status_code`; an aborted transfer ends with `CURLE_WRITE_ERROR` (23). -/
def sample_perform (k : jf_reply_error_codes) (D fuel : Nat)
    (parser : Nat → jf_thread_buffer → jf_thread_buffer) (blocks : List (List Nat))
    (status_code : Int) (w : write_function) (tb : jf_thread_buffer) (r : jf_reply) :
    Option curl_outcome :=
  match w with
  | .jf_reply_callback =>
    some { result := 0, status_code := status_code, s_tb := tb,
           reply := blocks.foldl (fun acc b => (jf_reply_callback b 1 b.length acc).2) r }
  | .jf_thread_buffer_callback =>
    match transfer_blocks k D fuel parser blocks tb r with
    | none => none
    | some (aborted, tb', r') =>
      some { result := if aborted then 23 else 0, status_code := status_code, s_tb := tb',
             reply := r' }

/-- A sample channel: a slot of eight bytes, empty, the mutex free. -/
def sample_tb : jf_thread_buffer :=
  { data := List.replicate 8 0, used := 0, promiscuous_context := false,
    state := .AWAITING_DATA, item_count := 0, parsed_ids := [], mut_locked := false }

/-- A sample parser thread that consumes the chunk and acknowledges. -/
def parser_ok (_ : Nat) (tb : jf_thread_buffer) : jf_thread_buffer :=
  { tb with used := 0, state := .AWAITING_DATA }

/-- A sample parser thread that consumes the last chunk and reports the end of the parse. -/
def parser_done (_ : Nat) (tb : jf_thread_buffer) : jf_thread_buffer :=
  { tb with used := 0, state := .CLEAR }

/-- A sample parser thread that fails on the chunk it reads during wait number `n`: it leaves
the message `"bad"` in the slot and signals the error; before that it acknowledges. -/
def parser_fails_at (n i : Nat) (tb : jf_thread_buffer) : jf_thread_buffer :=
  if i = n then
    { tb with data := memcpy tb.data (cstr "bad" ++ [0]) 4, used := 3, state := .PARSER_ERROR }
  else { tb with used := 0, state := .AWAITING_DATA }

/-- A sample environment of `jf_net_request`: the body `blocks` answered with `status_code`,
the parser thread `parser` during the transfer and `parser_after` after it. -/
def sample_env (k : jf_reply_error_codes) (D : Nat)
    (parser parser_after : Nat → jf_thread_buffer → jf_thread_buffer)
    (blocks : List (List Nat)) (status_code : Int) : net_env :=
  { curl_easy_perform := sample_perform k D 64 parser blocks status_code
    curl_easy_strerror := fun _ => cstr "curl error"
    parser := parser_after
    fuel := 8 }

/-- A channel in the error state whose message `"hi"` is shorter than `s_tb.used`. -/
def error_tb : jf_thread_buffer :=
  { data := [104, 105, 0, 33, 0, 0, 0, 0], used := 4, promiscuous_context := false,
    state := .PARSER_ERROR, item_count := 0, parsed_ids := [], mut_locked := false }

/-- The interleaving of a call that sends three bytes through a slot of four against
`parser_ok`: nine transitions, deposits at positions 2 and 7. -/
def sample_trace : List transition :=
  callback_trace sample_codes 4 [1, 2, 3] 3 20 parser_ok
    { pc := .entry, written_data := 0, s_tb := sample_tb, r := jf_reply_new }

/-- The transition at position `i` of `sample_trace`. -/
def sample_transition (i : Nat) : transition :=
  (sample_trace.drop i).headD
    { pre := { pc := .entry, written_data := 0, s_tb := sample_tb, r := jf_reply_new },
      ev := .consumer,
      post := { pc := .entry, written_data := 0, s_tb := sample_tb, r := jf_reply_new } }

end Net

namespace Json

/-! ## `json.h`: the SAX context and its helper macros -/

/-- The enum `jf_sax_parser_state` (lines 73-97). -/
inductive jf_sax_parser_state where
  | JF_SAX_NO_STATE
  | JF_SAX_IDLE
  | JF_SAX_IN_LATEST_ARRAY
  | JF_SAX_IN_QUERYRESULT_MAP
  | JF_SAX_IN_ITEMS_VALUE
  | JF_SAX_IN_ITEMS_ARRAY
  | JF_SAX_IN_ITEM_MAP
  | JF_SAX_IN_ITEM_TYPE_VALUE
  | JF_SAX_IN_ITEM_COLLECTION_TYPE_VALUE
  | JF_SAX_IN_ITEM_NAME_VALUE
  | JF_SAX_IN_ITEM_ID_VALUE
  | JF_SAX_IN_ITEM_ARTISTS_ARRAY
  | JF_SAX_IN_ITEM_ARTISTS_VALUE
  | JF_SAX_IN_ITEM_ALBUM_VALUE
  | JF_SAX_IN_ITEM_SERIES_VALUE
  | JF_SAX_IN_ITEM_YEAR_VALUE
  | JF_SAX_IN_ITEM_INDEX_VALUE
  | JF_SAX_IN_ITEM_PARENT_INDEX_VALUE
  | JF_SAX_IN_ITEM_RUNTIME_TICKS_VALUE
  | JF_SAX_IN_USERDATA_MAP
  | JF_SAX_IN_USERDATA_VALUE
  | JF_SAX_IN_USERDATA_TICKS_VALUE
  | JF_SAX_IGNORE
  deriving DecidableEq, Repr

/-- The memory the parser thread reads and writes: the byte at each address. The chunk in the
slot, the copy buffer and every captured slice live in it; a pointer is an address. -/
abbrev memory := Nat → Nat

/-- The struct `jf_sax_context` (lines 103-123). Pointers are addresses; `tb` and
`current_item_display_name` point to objects kept apart from `memory`. -/
structure jf_sax_context where
  parser_state : jf_sax_parser_state
  state_to_resume : jf_sax_parser_state
  maps_ignoring : Nat
  arrays_ignoring : Nat
  latest_array : Bool
  tb : Nat
  current_item_type : Nat
  copy_buffer : Nat
  current_item_display_name : Nat
  name : Nat
  name_len : Nat
  id : Nat
  id_len : Nat
  artist : Nat
  artist_len : Nat
  album : Nat
  album_len : Nat
  series : Nat
  series_len : Nat
  year : Nat
  year_len : Nat
  index : Nat
  index_len : Nat
  parent_index : Nat
  parent_index_len : Nat
  runtime_ticks : Int
  playback_ticks : Int
  deriving DecidableEq, Repr

/-- The captured fields, the possible arguments `field` of the macros of `json.h`. -/
inductive sax_field where
  | name
  | id
  | artist
  | album
  | series
  | year
  | index
  | parent_index
  deriving DecidableEq, Repr

/-- The member `context->field`. -/
def jf_sax_context.field (c : jf_sax_context) : sax_field → Nat
  | .name => c.name
  | .id => c.id
  | .artist => c.artist
  | .album => c.album
  | .series => c.series
  | .year => c.year
  | .index => c.index
  | .parent_index => c.parent_index

/-- The member `context->field ## _len`. -/
def jf_sax_context.field_len (c : jf_sax_context) : sax_field → Nat
  | .name => c.name_len
  | .id => c.id_len
  | .artist => c.artist_len
  | .album => c.album_len
  | .series => c.series_len
  | .year => c.year_len
  | .index => c.index_len
  | .parent_index => c.parent_index_len

/-- The assignment `context->field = p`. -/
def jf_sax_context.set_field (c : jf_sax_context) (f : sax_field) (p : Nat) : jf_sax_context :=
  match f with
  | .name => { c with name := p }
  | .id => { c with id := p }
  | .artist => { c with artist := p }
  | .album => { c with album := p }
  | .series => { c with series := p }
  | .year => { c with year := p }
  | .index => { c with index := p }
  | .parent_index => { c with parent_index := p }

/-- The `n` bytes of memory from address `p` on. -/
def read (mem : memory) (p n : Nat) : List Nat := (List.range n).map fun i => mem (p + i)

/-- The memory after `bytes` are stored from address `p` on. -/
def write (mem : memory) (p : Nat) (bytes : List Nat) : memory :=
  fun a => if p ≤ a ∧ a < p + bytes.length then bytes.getD (a - p) 0 else mem a

/-- The libc `strncpy(dst, src, n)`: the bytes of the string at `src`, at most `n`, followed by
NULs up to `n` bytes in all, are stored at `dst`. -/
def strncpy (mem : memory) (dst src n : Nat) : memory :=
  let s := (read mem src n).takeWhile fun b => b != 0
  write mem dst (s ++ List.replicate (n - s.length) 0)

/-- What `JF_SAX_CONTEXT_COPY` works on: the memory, the context and the local `used` of the
function that expands the macro. -/
structure copy_state where
  mem : memory
  context : jf_sax_context
  used : Nat

/-- The macro `JF_SAX_CONTEXT_COPY(field)` (lines 25-33). -/
def JF_SAX_CONTEXT_COPY (f : sax_field) (s : copy_state) : copy_state :=
  if s.context.field_len f > 0 then
    { mem := strncpy s.mem (s.context.copy_buffer + s.used) (s.context.field f)
        (s.context.field_len f)
      context := s.context.set_field f (s.context.copy_buffer + s.used)
      used := s.used + s.context.field_len f }
  else s

/-- The expansion of `JF_SAX_CONTEXT_COPY` on several fields in a row. -/
def copy_fields (fs : List sax_field) (s : copy_state) : copy_state :=
  fs.foldl (fun acc f => JF_SAX_CONTEXT_COPY f acc) s

/-- Modelled from the spec: `JF_STATIC_STRLEN` (a macro of `shared.h`), `sizeof(literal) - 1`:
the number of characters of a string literal, whose array has one more byte for the NUL. -/
def JF_STATIC_STRLEN (literal : List Nat) : Nat := (literal.length + 1) - 1

/-- Modelled from the spec: `jf_growing_buffer_append(buffer, data, length)` (defined in
`shared.c`, not among the sources) appends the first `length` bytes at `data` to the growable
buffer, whose content is the list of its bytes. -/
def jf_growing_buffer_append (buffer : List Nat) (data : List Nat) (length : Nat) : List Nat :=
  buffer ++ data.take length

/-- The macro `JF_SAX_TRY_APPEND_NAME(prefix, field, suffix)` (lines 43-53) on the content
`display_name` of `context->current_item_display_name`; `pfx` and `sfx` are the characters of
the two string literals. -/
def JF_SAX_TRY_APPEND_NAME (pfx : List Nat) (f : sax_field) (sfx : List Nat) (mem : memory)
    (context : jf_sax_context) (display_name : List Nat) : List Nat :=
  if context.field_len f > 0 then
    let b1 := jf_growing_buffer_append display_name (pfx ++ [0]) (JF_STATIC_STRLEN pfx)
    let b2 := jf_growing_buffer_append b1
      (read mem (context.field f) (context.field_len f)) (context.field_len f)
    jf_growing_buffer_append b2 (sfx ++ [0]) (JF_STATIC_STRLEN sfx)
  else display_name

/-- A sample context: the copy buffer at address 1000, a name of three bytes and an album of
two captured in the chunk at address 100, no artist. -/
def sample_context : jf_sax_context :=
  { parser_state := .JF_SAX_IN_ITEM_MAP, state_to_resume := .JF_SAX_NO_STATE,
    maps_ignoring := 0, arrays_ignoring := 0, latest_array := false, tb := 1,
    current_item_type := 0, copy_buffer := 1000, current_item_display_name := 2,
    name := 110, name_len := 3, id := 120, id_len := 0, artist := 0, artist_len := 0,
    album := 130, album_len := 2, series := 0, series_len := 0, year := 0, year_len := 0,
    index := 0, index_len := 0, parent_index := 0, parent_index_len := 0,
    runtime_ticks := 0, playback_ticks := 0 }

/-- A sample memory: the letters `a`, `b`, `c`, ... from address 110 on, zero elsewhere. -/
def sample_memory : memory := fun a => if 110 ≤ a ∧ a < 140 then 97 + (a - 110) else 0

end Json

namespace Network

/-! ## `network.c`: the catalog records -/

/-- Modelled from the spec: the menu item record made by `jf_menu_item_new(type, id, NULL)`
(defined in `shared.c`, not among the sources): the type tag and the identifier, a string. -/
structure jf_menu_item where
  type : Nat
  id : List Nat
  deriving DecidableEq, Repr

/-- Modelled from the spec: `jf_menu_item_new(type, id, NULL)` returns a new record with that
type and identifier (allocation is taken to succeed). -/
def jf_menu_item_new (type : Nat) (id : List Nat) : Option jf_menu_item :=
  some { type := type, id := id }

/-- Line 125: `offset = (n - 1) * (1 + JF_ID_LENGTH)`, the start of record `n`. -/
def record_offset (JF_ID_LENGTH n : Nat) : Nat := (n - 1) * (1 + JF_ID_LENGTH)

/-- The function `jf_thread_buffer_get_parsed_item` (lines 118-133); `JF_ID_LENGTH` is a
constant of `shared.h`, a parameter here. `none` is the NULL pointer. A byte read past the end
of the list `parsed_ids` is read as NUL. -/
def jf_thread_buffer_get_parsed_item (JF_ID_LENGTH : Nat) (s_tb : jf_thread_buffer) (n : Nat) :
    Option jf_menu_item :=
  if n > 0 ∧ n ≤ s_tb.item_count then
    let offset := record_offset JF_ID_LENGTH n
    let item_type := s_tb.parsed_ids.getD offset 0
    let item_id := strndup (s_tb.parsed_ids.drop (offset + 1)) JF_ID_LENGTH
    jf_menu_item_new item_type item_id
  else none

/-- A sample catalog with identifiers of three bytes: two records, the second identifier
holding a NUL. -/
def sample_catalog : jf_thread_buffer :=
  { data := [], used := 0, promiscuous_context := false, state := .CLEAR, item_count := 2,
    parsed_ids := [7, 97, 98, 99, 8, 100, 0, 101], mut_locked := false }

end Network

namespace Net

/-! ## `net.c`: the indices a deposit writes -/

/-- Lines 133-135: the indices of `s_tb.data` that one deposit writes, the chunk bytes
`0 .. chunk_size - 1` (the `memcpy`) and the NUL at `chunk_size + 1`. -/
def send_data_indices (D real_size written_data : Nat) : List Nat :=
  List.range (chunk_size D real_size written_data) ++
    [chunk_size D real_size written_data + 1]

end Net

namespace Json

/-! ## `json.h`: key recognition, bad states, the ignore counters -/

/-- The libc `strncmp(a, b, n) == 0`: the strings at `a` and `b` agree on their first `n`
bytes, or up to and including a NUL that both have at the same place. `a` and `b` are the
memory from the pointers on; a byte past the end of the list is read as NUL. -/
def strncmp_eq : List Nat → List Nat → Nat → Bool
  | _, _, 0 => true
  | a, b, n + 1 =>
    if a.headD 0 ≠ b.headD 0 then false
    else if a.headD 0 = 0 then true
    else strncmp_eq a.tail b.tail n

/-- The macro `JF_SAX_KEY_IS(name)` (line 35):
`strncmp(key, name, sizeof(name) > key_len ? key_len : sizeof(name)) == 0`. `name` holds the
characters of the string literal, whose array has one more byte for the NUL; `key` is the
memory from the pointer `key` on. -/
def JF_SAX_KEY_IS (name : List Nat) (key : List Nat) (key_len : Nat) : Bool :=
  strncmp_eq key (name ++ [0]) (if name.length + 1 > key_len then key_len else name.length + 1)

/-- The macro `JF_SAX_STRING_IS(name)` (line 37), the same test on `string`, `string_len`. -/
def JF_SAX_STRING_IS (name : List Nat) (string : List Nat) (string_len : Nat) : Bool :=
  strncmp_eq string (name ++ [0])
    (if name.length + 1 > string_len then string_len else name.length + 1)

/-- What a lexer callback can reach: the parser context, the relay channel `context->tb`
(which holds the catalog sink `parsed_ids` and `item_count`), the display-name buffer and the
lines written to `stderr`. -/
structure sax_world where
  context : jf_sax_context
  tb : jf_thread_buffer
  display_name : List Nat
  stderr : List (List Nat)
  deriving DecidableEq, Repr

/-- The macro `JF_SAX_BAD_STATE()` (lines 12-17) expanded in a lexer callback at `file:line`:
two lines go to `stderr` and the callback returns 0. The result is the value returned by the
callback and the world at the return. -/
def JF_SAX_BAD_STATE (file : String) (line : Nat) (w : sax_world) : Nat × sax_world :=
  (0, { w with stderr := w.stderr ++
    [cstr (file ++ ":" ++ toString line ++ ": JF_SAX_BAD_STATE.\n"),
     cstr "This is a bug.\n"] })

/-- The events of the JSON tokenizer. -/
inductive lexer_event where
  | map_open
  | map_close
  | array_open
  | array_close
  | key
  | string_value
  | number_value
  deriving DecidableEq, Repr

/-- Modelled from the spec: the transition of the parse state machine on one lexer event while
it is ignoring. The lexer callbacks are in `json.c`, which is not among the sources; the spec
(4.2) says: "While ignoring, every subsequent map-open/array-open increments the matching
counter, every close decrements it; when both counters reach zero the state reverts to the
saved resume-state." Keys and values change nothing; outside the ignoring state the
transition is not modelled and the context is left as it is. A counter is bounded by the
number of events read, so it is a `Nat`. -/
def ignore_step (c : jf_sax_context) (e : lexer_event) : jf_sax_context :=
  if c.parser_state = .JF_SAX_IGNORE then
    match e with
    | .map_open => { c with maps_ignoring := c.maps_ignoring + 1 }
    | .array_open => { c with arrays_ignoring := c.arrays_ignoring + 1 }
    | .map_close =>
      if c.maps_ignoring - 1 = 0 ∧ c.arrays_ignoring = 0 then
        { c with maps_ignoring := c.maps_ignoring - 1, parser_state := c.state_to_resume }
      else { c with maps_ignoring := c.maps_ignoring - 1 }
    | .array_close =>
      if c.maps_ignoring = 0 ∧ c.arrays_ignoring - 1 = 0 then
        { c with arrays_ignoring := c.arrays_ignoring - 1, parser_state := c.state_to_resume }
      else { c with arrays_ignoring := c.arrays_ignoring - 1 }
    | _ => c
  else c

/-- The context after a sequence of lexer events. -/
def ignore_run (c : jf_sax_context) (es : List lexer_event) : jf_sax_context :=
  es.foldl ignore_step c

/-- The two kinds of JSON structure. -/
inductive bracket where
  | map
  | array
  deriving DecidableEq, Repr

/-- A sequence of events closes exactly the open structures `stack` (innermost first) and is
otherwise well nested: every close matches the latest open structure of its kind. -/
def balanced_from : List bracket → List lexer_event → Bool
  | stack, [] => stack.isEmpty
  | stack, .map_open :: es => balanced_from (.map :: stack) es
  | stack, .array_open :: es => balanced_from (.array :: stack) es
  | .map :: stack, .map_close :: es => balanced_from stack es
  | _, .map_close :: _ => false
  | .array :: stack, .array_close :: es => balanced_from stack es
  | _, .array_close :: _ => false
  | stack, _ :: es => balanced_from stack es

/-- A well-nested sequence of events: the content of a JSON map or array. -/
def well_nested (es : List lexer_event) : Bool := balanced_from [] es

/-- The event that closes a structure of the given kind. -/
def bracket.close : bracket → lexer_event
  | .map => .map_close
  | .array => .array_close

/-- The ignore counters `(maps_ignoring, arrays_ignoring)` right after a structure of the given
kind started the ignoring. -/
def bracket.counters : bracket → Nat × Nat
  | .map => (1, 0)
  | .array => (0, 1)

/-- The JSON text that follows a key or a string value in the chunk: a double quote, a colon,
the digit 1 and a closing brace. -/
def json_rest : List Nat := [34, 58, 49, 125]

/-- A sample memory whose name slice at address 110 holds a NUL: `a`, NUL, `c`. -/
def sample_memory_nul : memory :=
  fun a => if a = 110 then 97 else if a = 112 then 99 else 0

/-- A sample world of a lexer callback: a chunk pending in the channel. -/
def sample_world : sax_world :=
  { context := sample_context,
    tb := { data := [123, 93, 0, 0], used := 2, promiscuous_context := false,
            state := .PENDING_DATA, item_count := 1, parsed_ids := [7, 97, 98, 99],
            mut_locked := false },
    display_name := [], stderr := [] }

end Json

namespace Network

/-! ## `network.c`: requests -/

/-- Lines 260-271 of `jf_request`: the dispatch on the request type. The case
JF_REQUEST_SAX_PROMISCUOUS sets `promiscuous_context` and falls through to the case
JF_REQUEST_SAX, which only picks the write callback. -/
def request_dispatch (request_type : Net.jf_request_type) (s_tb : jf_thread_buffer) :
    Net.write_function × jf_thread_buffer :=
  match request_type with
  | .JF_REQUEST_IN_MEMORY => (.jf_reply_callback, s_tb)
  | .JF_REQUEST_SAX_PROMISCUOUS =>
    (.jf_thread_buffer_callback, { s_tb with promiscuous_context := true })
  | .JF_REQUEST_SAX => (.jf_thread_buffer_callback, s_tb)

/-- Lines 279-294 of `jf_request`: the `switch` on the HTTP status. -/
def check_status (k : jf_reply_error_codes) (status_code : Int) (reply : jf_reply) : jf_reply :=
  if status_code = 200 then reply
  else if status_code = 401 then { reply with size := k.HTTP_401 }
  else { payload := some (Net.status_message status_code), size := k.HTTP_NOT_OK }

/-- The collaborators of `jf_request`: whether `s_handle` has been set up, and libcurl. -/
structure request_env where
  s_handle_ready : Bool
  curl_easy_perform :
    Net.write_function → jf_thread_buffer → jf_reply → Option Net.curl_outcome
  curl_easy_strerror : Nat → List Nat

/-- The function `jf_request` of `network.c` (lines 225-298); `UNINITIALIZED` is the value of
`JF_REPLY_ERROR_UNINITIALIZED`. Allocation is taken to succeed. The result is the returned
reply and the channel `s_tb` at the return; `none` when the call does not return. -/
def jf_request (k : jf_reply_error_codes) (UNINITIALIZED : Int) (env : request_env)
    (request_type : Net.jf_request_type) (s_tb : jf_thread_buffer) :
    Option (jf_reply × jf_thread_buffer) :=
  if !env.s_handle_ready then some ({ payload := none, size := UNINITIALIZED }, s_tb)
  else
    let d := request_dispatch request_type s_tb
    match env.curl_easy_perform d.1 d.2 { payload := none, size := 0 } with
    | none => none
    | some out =>
      if out.result ≠ 0 then
        some ({ payload := some (env.curl_easy_strerror out.result), size := k.NETWORK },
          out.s_tb)
      else some (check_status k out.status_code out.reply, out.s_tb)

/-- A sample environment of `jf_request`: a transfer with an empty body answered with
status 200, during which the channel is not touched. -/
def sample_request_env : request_env :=
  { s_handle_ready := true
    curl_easy_perform := fun _ tb r =>
      some { result := 0, status_code := 200, s_tb := tb, reply := r }
    curl_easy_strerror := fun _ => cstr "curl error" }

/-- A sample catalog whose array holds one record of `1 + 3` bytes while the counter says
two items. -/
def sample_overfull_catalog : jf_thread_buffer :=
  { data := [], used := 0, promiscuous_context := false, state := .CLEAR, item_count := 2,
    parsed_ids := [7, 97, 98, 99], mut_locked := false }

end Network

namespace Main

/-! ## `main.c`: playback progress of split-part items -/

/-- A child of the now-playing item, one part of a split file: the members of
`children[i]` that `main.c` reads. -/
structure jf_menu_item_part where
  id : List Nat
  runtime_ticks : Int
  deriving DecidableEq, Repr

/-- The now-playing item `g_state.now_playing`: the members that
`jf_now_playing_update_progress` reads or writes; `children_count` is the length of
`children`. -/
structure jf_now_playing where
  id : List Nat
  playback_ticks : Int
  children : List jf_menu_item_part
  deriving DecidableEq, Repr

/-- What `jf_now_playing_update_progress` does to the outside: a progress update sent with
`jf_update_progress_remote(id, playback_ticks)`, or `jf_menu_mark_played` /
`jf_menu_mark_unplayed` called on `children[child]`. -/
inductive progress_effect where
  | update_progress_remote (id : List Nat) (playback_ticks : Int)
  | mark_played (child : Nat)
  | mark_unplayed (child : Nat)
  deriving DecidableEq, Repr

/-- The value that 64-bit two's complement arithmetic gives for the exact result `x` of an
`int64_t` (or `long long`) sum or difference: `x` itself when it lies in `[-2^63, 2^63)`, and
`x` reduced modulo `2^64` into that range when the operation overflows. -/
def wrap64 (x : Int) : Int :=
  (x + 9223372036854775808) % 18446744073709551616 - 9223372036854775808

/-- The locals of the first loop of `jf_now_playing_update_progress`; `none` is a variable
that has not been assigned. -/
structure part_loop_state where
  accounted_ticks : Int
  current_tick_offset : Int
  current_part : Option Nat
  last_part : Option Nat
  deriving DecidableEq, Repr

/-- Lines 169-180: the body of the first loop, for child `i` with runtime `runtime_ticks`;
`stored` is `g_state.now_playing->playback_ticks`. Every sum is an `int64_t` sum. -/
def part_loop_body (playback_ticks stored : Int) (i : Nat) (runtime_ticks : Int)
    (s : part_loop_state) : part_loop_state :=
  let s1 :=
    if s.accounted_ticks ≤ playback_ticks then
      if playback_ticks < wrap64 (s.accounted_ticks + runtime_ticks) then
        { s with current_part := some i }
      else { s with current_tick_offset := wrap64 (s.current_tick_offset + runtime_ticks) }
    else s
  let s2 :=
    if s.accounted_ticks ≤ stored ∧ stored < wrap64 (s.accounted_ticks + runtime_ticks) then
      { s1 with last_part := some i }
    else s1
  { s2 with accounted_ticks := wrap64 (s.accounted_ticks + runtime_ticks) }

/-- Lines 168-181: the first loop, over the runtimes of the children from index `i` on. -/
def part_loop (playback_ticks stored : Int) : List Int → Nat → part_loop_state → part_loop_state
  | [], _, s => s
  | r :: rs, i, s =>
    part_loop playback_ticks stored rs (i + 1) (part_loop_body playback_ticks stored i r s)

/-- Lines 190-196: the second loop, which marks the children before `current_part` as played
and those after it as unplayed. -/
def mark_parts (children_count current_part : Nat) : List progress_effect :=
  (List.range children_count).filterMap fun i =>
    if i < current_part then some (.mark_played i)
    else if i > current_part then some (.mark_unplayed i)
    else none

/-- The outcome of `jf_now_playing_update_progress`: the effects in order, the now-playing
item, and whether the run was defined; `defined = false` when an unassigned local or a child
past the end was read, and then the effects are those made before that read. -/
structure progress_result where
  effects : List progress_effect
  now_playing : jf_now_playing
  defined : Bool
  deriving DecidableEq, Repr

/-- The function `jf_now_playing_update_progress` (lines 153-197). -/
def jf_now_playing_update_progress (now_playing : jf_now_playing) (playback_ticks : Int) :
    progress_result :=
  if now_playing.children.length ≤ 1 then
    { effects := [.update_progress_remote now_playing.id playback_ticks]
      now_playing := { now_playing with playback_ticks := playback_ticks }
      defined := true }
  else
    let s := part_loop playback_ticks now_playing.playback_ticks
      (now_playing.children.map fun c => c.runtime_ticks) 0
      { accounted_ticks := 0, current_tick_offset := 0, current_part := none,
        last_part := none }
    match s.current_part with
    | none => { effects := [], now_playing := now_playing, defined := false }
    | some current_part =>
      match now_playing.children.get? current_part with
      | none => { effects := [], now_playing := now_playing, defined := false }
      | some child =>
        let sent : List progress_effect :=
          [.update_progress_remote child.id (wrap64 (playback_ticks - s.current_tick_offset))]
        let stored := { now_playing with playback_ticks := playback_ticks }
        match s.last_part with
        | none => { effects := sent, now_playing := stored, defined := false }
        | some last_part =>
          if last_part = current_part then
            { effects := sent, now_playing := stored, defined := true }
          else
            { effects := sent ++ mark_parts now_playing.children.length current_part
              now_playing := stored
              defined := true }

/-- The start of part `k` in the merged file: the sum of the runtimes of the parts before. -/
def part_start (runtimes : List Int) (k : Nat) : Int := (runtimes.take k).sum

/-- A sample split item of three parts with runtimes 10, 20 and 30, last reported at tick 5. -/
def sample_now_playing : jf_now_playing :=
  { id := cstr "whole", playback_ticks := 5,
    children := [{ id := cstr "p0", runtime_ticks := 10 },
                 { id := cstr "p1", runtime_ticks := 20 },
                 { id := cstr "p2", runtime_ticks := 30 }] }

end Main

namespace Main

/-! ## `main.c`: the offset of an external subtitle track -/

/-- Lines 262-268 of `jf_align_subtitle`: the loop
`while (i < children_count && offset_ticks + children[i]->runtime_ticks <= playback_ticks)`
over the runtimes of the children from index `i` on, from the current `offset_ticks`. The sums
are `long long` sums. -/
def align_offset_loop (playback_ticks : Int) : List Int → Int → Int
  | [], offset_ticks => offset_ticks
  | r :: rs, offset_ticks =>
    if wrap64 (offset_ticks + r) ≤ playback_ticks then
      align_offset_loop playback_ticks rs (wrap64 (offset_ticks + r))
    else offset_ticks

/-- Lines 262-268 of `jf_align_subtitle`: `offset_ticks` for the now-playing item at the
position `playback_ticks` (in ticks). -/
def align_subtitle_offset (now_playing : jf_now_playing) (playback_ticks : Int) : Int :=
  align_offset_loop playback_ticks (now_playing.children.map fun c => c.runtime_ticks) 0

/-- No sum of the first loop overflows from the state `s` on, over the runtimes `rs` still to
come: the ticks accounted for are non-negative and stay below `2^63`, and the offset lies
between 0 and them. -/
def no_overflow (s : part_loop_state) (rs : List Int) : Prop :=
  0 ≤ s.accounted_ticks ∧ s.accounted_ticks + rs.sum < 9223372036854775808 ∧
    0 ≤ s.current_tick_offset ∧ s.current_tick_offset ≤ s.accounted_ticks

/-- A sample split item whose runtimes `2^63 - 1`, 10 and 10 add up to more than an `int64_t`
holds, last reported at tick 0. -/
def sample_long_item : jf_now_playing :=
  { id := cstr "whole", playback_ticks := 0,
    children := [{ id := cstr "p0", runtime_ticks := 9223372036854775807 },
                 { id := cstr "p1", runtime_ticks := 10 },
                 { id := cstr "p2", runtime_ticks := 10 }] }

/-- A sample split item of three parts of `2^62` ticks each, last reported at tick 0. -/
def sample_long_parts : jf_now_playing :=
  { id := cstr "whole", playback_ticks := 0,
    children := [{ id := cstr "p0", runtime_ticks := 4611686018427387904 },
                 { id := cstr "p1", runtime_ticks := 4611686018427387904 },
                 { id := cstr "p2", runtime_ticks := 4611686018427387904 }] }

/-- The locals of `jf_now_playing_update_progress` before its first loop. -/
def part_loop_start : part_loop_state :=
  { accounted_ticks := 0, current_tick_offset := 0, current_part := none, last_part := none }

end Main

namespace Network

/-! ## `network.c`: the older deposit routine -/

/-- Line 103 of `network.c`:
`chunk_size = real_size - written_data <= D ? real_size - written_data : D`
with `D = JF_THREAD_BUFFER_DATA_SIZE`. -/
def chunk_size (D real_size written_data : Nat) : Nat :=
  if real_size - written_data ≤ D then real_size - written_data else D

/-- Lines 104-107 of `network.c`: the deposit of one chunk into the slot. The list `data` has
the `D` bytes of the array; a write past its end is lost in the list. -/
def send_data (D : Nat) (payload : List Nat) (real_size written_data : Nat)
    (tb : jf_thread_buffer) : jf_thread_buffer :=
  let n := chunk_size D real_size written_data
  { tb with
    data := (memcpy tb.data (payload.drop written_data) n).set n 0
    used := n }

/-- Lines 104-106 of `network.c`: the indices of `s_tb.data` that one deposit writes, the
chunk bytes `0 .. chunk_size - 1` (the `memcpy`) and the NUL at `chunk_size`. -/
def send_data_indices (D real_size written_data : Nat) : List Nat :=
  List.range (chunk_size D real_size written_data) ++ [chunk_size D real_size written_data]

/-- The result of a completed call of the older `jf_thread_buffer_callback`: the returned
count, the channel, and for each deposit the indices of `s_tb.data` it wrote. -/
structure callback_result where
  ret : Nat
  s_tb : jf_thread_buffer
  writes : List (List Nat)
  deriving DecidableEq, Repr

/-- Lines 99-110 of `network.c`: the loop of `jf_thread_buffer_callback`, the mutex held, then
the unlock and the return. `parser i` is what the parser thread does to the channel during
the `i`-th `pthread_cond_wait` from now. `none`: out of `fuel`. -/
def callback_loop (D : Nat) (payload : List Nat) (real_size : Nat) :
    Nat → (Nat → jf_thread_buffer → jf_thread_buffer) → Nat → jf_thread_buffer →
    List (List Nat) → Option callback_result
  | 0, _, _, _, _ => none
  | fuel + 1, parser, written_data, tb, writes =>
    if written_data < real_size then
      if tb.used ≠ 0 then
        callback_loop D payload real_size fuel (fun i => parser (i + 1)) written_data
          (Net.parser_acts (parser 0) tb) writes
      else
        callback_loop D payload real_size fuel parser
          (written_data + chunk_size D real_size written_data)
          (send_data D payload real_size written_data tb)
          (writes ++ [send_data_indices D real_size written_data])
    else some { ret := written_data, s_tb := { tb with mut_locked := false }, writes := writes }

/-- The function `jf_thread_buffer_callback` of `network.c` (lines 91-113), with
`real_size = size * nmemb` in `size_t`. `none`: blocked in `pthread_mutex_lock`, or out of
`fuel`. -/
def jf_thread_buffer_callback (D fuel : Nat)
    (parser : Nat → jf_thread_buffer → jf_thread_buffer)
    (payload : List Nat) (size nmemb : Nat) (s_tb : jf_thread_buffer) :
    Option callback_result :=
  if s_tb.mut_locked then none
  else callback_loop D payload ((size * nmemb) % 2 ^ 64) fuel parser 0
    { s_tb with mut_locked := true } []

/-- A sample parser thread of `network.c`: it consumes the chunk and sets `used` to 0. -/
def parser_consumes (_ : Nat) (tb : jf_thread_buffer) : jf_thread_buffer :=
  { tb with used := 0 }

/-- A sample channel with a slot of four bytes, empty, the mutex free. -/
def sample_slot : jf_thread_buffer :=
  { data := [0, 0, 0, 0], used := 0, promiscuous_context := false, state := .CLEAR,
    item_count := 0, parsed_ids := [], mut_locked := false }

end Network

namespace Net

/-! ## `net.c`: properties of the relay channel -/

theorem chunk_size_le (D R w : Nat) : chunk_size D R w ≤ R - w := by
  unfold chunk_size
  split <;> omega

theorem chunk_size_pos (D R w : Nat) (hD : 3 ≤ D) (hw : w < R) : 0 < chunk_size D R w := by
  unfold chunk_size
  split <;> omega

theorem send_data_slot (D : Nat) (payload : List Nat) (R w : Nat) (tb : jf_thread_buffer)
    (hlen : R ≤ payload.length) :
    (send_data D payload R w tb).data.take (send_data D payload R w tb).used =
      (payload.drop w).take (chunk_size D R w) := by
  have hle := chunk_size_le D R w
  have h1 : ((payload.drop w).take (chunk_size D R w)).length = chunk_size D R w := by
    rw [List.length_take, List.length_drop]; omega
  simp only [send_data, memcpy]
  rw [List.take_set_of_lt _ _ (Nat.lt_succ_self _)]
  rw [List.take_append_of_le_length (by omega)]
  rw [List.take_of_length_le (by omega)]

theorem callback_run_outer_done (k : jf_reply_error_codes) (D : Nat) (payload : List Nat)
    (R fuel : Nat) (parser : Nat → jf_thread_buffer → jf_thread_buffer) (w : Nat)
    (tb : jf_thread_buffer) (r : jf_reply) (deposits : List (List Nat)) (waits : Nat)
    (hw : ¬ w < R) :
    callback_run k D payload R (fuel + 2) parser
      { pc := .outer, written_data := w, s_tb := tb, r := r } deposits waits =
    some { ret := w, s_tb := { tb with mut_locked := false }, r := r, deposits := deposits,
           waits := waits } := by
  simp [callback_run, callback_step, hw]

theorem callback_run_outer_more (k : jf_reply_error_codes) (D : Nat) (payload : List Nat)
    (R fuel : Nat) (parser : Nat → jf_thread_buffer → jf_thread_buffer) (w : Nat)
    (tb : jf_thread_buffer) (r : jf_reply) (deposits : List (List Nat)) (waits : Nat)
    (hw : w < R) :
    callback_run k D payload R (fuel + 1) parser
      { pc := .outer, written_data := w, s_tb := tb, r := r } deposits waits =
    callback_run k D payload R fuel parser
      { pc := .inner, written_data := w, s_tb := tb, r := r } deposits waits := by
  simp [callback_run, callback_step, hw]

theorem callback_run_inner_write (k : jf_reply_error_codes) (D : Nat) (payload : List Nat)
    (R fuel : Nat) (parser : Nat → jf_thread_buffer → jf_thread_buffer) (w : Nat)
    (tb : jf_thread_buffer) (r : jf_reply) (deposits : List (List Nat)) (waits : Nat)
    (h1 : tb.state ≠ .PENDING_DATA) (h2 : tb.state ≠ .PARSER_ERROR) :
    callback_run k D payload R (fuel + 1) parser
      { pc := .inner, written_data := w, s_tb := tb, r := r } deposits waits =
    callback_run k D payload R fuel parser
      { pc := .outer, written_data := w + chunk_size D R w,
        s_tb := send_data D payload R w tb, r := r }
      (deposits ++ [(send_data D payload R w tb).data.take (send_data D payload R w tb).used])
      waits := by
  simp [callback_run, callback_step, h1, h2]

theorem callback_run_inner_wait (k : jf_reply_error_codes) (D : Nat) (payload : List Nat)
    (R fuel : Nat) (parser : Nat → jf_thread_buffer → jf_thread_buffer) (w : Nat)
    (tb : jf_thread_buffer) (r : jf_reply) (deposits : List (List Nat)) (waits : Nat)
    (h1 : tb.state = .PENDING_DATA) :
    callback_run k D payload R (fuel + 2) parser
      { pc := .inner, written_data := w, s_tb := tb, r := r } deposits waits =
    callback_run k D payload R fuel (fun i => parser (i + 1))
      { pc := .inner, written_data := w,
        s_tb := { parser 0 { tb with mut_locked := false } with mut_locked := true }, r := r }
      deposits (waits + 1) := by
  simp [callback_run, callback_step, h1, parser_acts]

theorem callback_run_inner_error (k : jf_reply_error_codes) (D : Nat) (payload : List Nat)
    (R fuel : Nat) (parser : Nat → jf_thread_buffer → jf_thread_buffer) (w : Nat)
    (tb : jf_thread_buffer) (r : jf_reply) (deposits : List (List Nat)) (waits : Nat)
    (h1 : tb.state = .PARSER_ERROR) :
    callback_run k D payload R (fuel + 2) parser
      { pc := .inner, written_data := w, s_tb := tb, r := r } deposits waits =
    some { ret := 0, s_tb := tb,
           r := { payload := some (strndup tb.data tb.used), size := k.PARSER },
           deposits := deposits, waits := waits } := by
  simp [callback_run, callback_step, h1]

theorem callback_run_entry (k : jf_reply_error_codes) (D : Nat) (payload : List Nat)
    (R fuel : Nat) (parser : Nat → jf_thread_buffer → jf_thread_buffer) (w : Nat)
    (tb : jf_thread_buffer) (r : jf_reply) (deposits : List (List Nat)) (waits : Nat)
    (h1 : tb.mut_locked = false) :
    callback_run k D payload R (fuel + 1) parser
      { pc := .entry, written_data := w, s_tb := tb, r := r } deposits waits =
    callback_run k D payload R fuel parser
      { pc := .outer, written_data := w, s_tb := { tb with mut_locked := true }, r := r }
      deposits waits := by
  simp [callback_run, callback_step, h1]

/-- The loop of `jf_thread_buffer_callback` with a parser thread that acknowledges: from the
test of the outer `while` with `w` bytes written, the call returns the whole size and the
chunks it deposits are non-empty and make up the rest of the payload. -/
theorem callback_run_delivers (k : jf_reply_error_codes) (D : Nat) (payload : List Nat)
    (R : Nat) (hD : 3 ≤ D) (hlen : payload.length = R) :
    ∀ (m w fuel : Nat) (parser : Nat → jf_thread_buffer → jf_thread_buffer)
      (tb : jf_thread_buffer) (r : jf_reply) (deposits : List (List Nat)) (waits : Nat),
      R - w ≤ m → w ≤ R → 4 * m + 2 ≤ fuel → tb.state ≠ .PARSER_ERROR →
      (∀ i t, t.state = .PENDING_DATA →
        (parser i t).state ≠ .PENDING_DATA ∧ (parser i t).state ≠ .PARSER_ERROR) →
      ∃ res new,
        callback_run k D payload R fuel parser
          { pc := .outer, written_data := w, s_tb := tb, r := r } deposits waits = some res ∧
        res.ret = R ∧ res.r = r ∧ res.s_tb.mut_locked = false ∧
        res.deposits = deposits ++ new ∧
        new.flatten = payload.drop w ∧ ∀ c ∈ new, c ≠ [] := by
  intro m
  induction m with
  | zero =>
    intro w fuel parser tb r deposits waits hm hw hf _ _
    obtain ⟨f, rfl⟩ : ∃ f, fuel = f + 2 := ⟨fuel - 2, by omega⟩
    have hwR : w = R := by omega
    refine ⟨_, [], callback_run_outer_done k D payload R f parser w tb r deposits waits
      (by omega), hwR, rfl, rfl, by simp, ?_, by simp⟩
    simp [hwR, ← hlen]
  | succ m ih =>
    intro w fuel parser tb r deposits waits hm hw hf hst hp
    by_cases hwR : w < R
    · have hpos := chunk_size_pos D R w hD hwR
      have hle := chunk_size_le D R w
      -- the deposit of one chunk from the inner test, then the induction hypothesis
      have key : ∀ (f : Nat) (parser' : Nat → jf_thread_buffer → jf_thread_buffer)
          (tb' : jf_thread_buffer) (waits' : Nat), 4 * m + 3 ≤ f →
          tb'.state ≠ .PENDING_DATA → tb'.state ≠ .PARSER_ERROR →
          (∀ i t, t.state = .PENDING_DATA →
            (parser' i t).state ≠ .PENDING_DATA ∧ (parser' i t).state ≠ .PARSER_ERROR) →
          ∃ res new,
            callback_run k D payload R f parser'
              { pc := .inner, written_data := w, s_tb := tb', r := r } deposits waits' =
              some res ∧
            res.ret = R ∧ res.r = r ∧ res.s_tb.mut_locked = false ∧
            res.deposits = deposits ++ new ∧
            new.flatten = payload.drop w ∧ ∀ c ∈ new, c ≠ [] := by
        intro f parser' tb' waits' hf' h1 h2 hp'
        obtain ⟨g, rfl⟩ : ∃ g, f = g + 1 := ⟨f - 1, by omega⟩
        rw [callback_run_inner_write k D payload R g parser' w tb' r deposits waits' h1 h2]
        obtain ⟨res, new, hrun, hret, hr, hmut, hdep, hjoin, hne⟩ :=
          ih (w + chunk_size D R w) g parser' (send_data D payload R w tb') r
            (deposits ++ [(send_data D payload R w tb').data.take
              (send_data D payload R w tb').used]) waits'
            (by omega) (by omega) (by omega) (by simp [send_data]) hp'
        have hslot := send_data_slot D payload R w tb' (by omega)
        refine ⟨res, ((payload.drop w).take (chunk_size D R w)) :: new, hrun, hret, hr, hmut,
          ?_, ?_, ?_⟩
        · rw [hdep, hslot]; simp
        · rw [List.flatten_cons, hjoin, ← List.drop_drop, List.take_append_drop]
        · intro c hc
          rcases List.mem_cons.mp hc with rfl | hc
          · intro h0
            have := congrArg List.length h0
            rw [List.length_take, List.length_drop] at this
            simp at this
            omega
          · exact hne c hc
      obtain ⟨f, rfl⟩ : ∃ f, fuel = f + 1 := ⟨fuel - 1, by omega⟩
      rw [callback_run_outer_more k D payload R f parser w tb r deposits waits hwR]
      by_cases hpend : tb.state = .PENDING_DATA
      · obtain ⟨g, rfl⟩ : ∃ g, f = g + 2 := ⟨f - 2, by omega⟩
        rw [callback_run_inner_wait k D payload R g parser w tb r deposits waits hpend]
        have hack := hp 0 { tb with mut_locked := false } hpend
        exact key g (fun i => parser (i + 1)) _ (waits + 1) (by omega) hack.1 hack.2
          (fun i t ht => hp (i + 1) t ht)
      · exact key f parser tb waits (by omega) hpend hst hp
    · obtain ⟨f, rfl⟩ : ∃ f, fuel = f + 2 := ⟨fuel - 2, by omega⟩
      have hwR' : w = R := by omega
      refine ⟨_, [], callback_run_outer_done k D payload R f parser w tb r deposits waits
        hwR, hwR', rfl, rfl, by simp, ?_, by simp⟩
      simp [hwR', ← hlen]

/-- C1: with a slot of `D >= 3` bytes, a payload of `size * nmemb` bytes, the mutex free and a
parser thread that answers every pending chunk by moving the state out of PENDING_DATA and
never to PARSER_ERROR, `jf_thread_buffer_callback` returns (given enough fuel) exactly
`size * nmemb`; the chunks it left in the slot (the first `s_tb.used` bytes of `s_tb.data`
after each write), concatenated in deposit order, are the payload, and each is non-empty. -/
theorem deposit_delivers_payload_in_order (k : jf_reply_error_codes) (D : Nat)
    (parser : Nat → jf_thread_buffer → jf_thread_buffer) (payload : List Nat)
    (size nmemb : Nat) (r : jf_reply) (s_tb : jf_thread_buffer)
    (hD : 3 ≤ D) (hfit : size * nmemb < 2 ^ 64) (hlen : payload.length = size * nmemb)
    (hmut : s_tb.mut_locked = false) (hst : s_tb.state ≠ .PARSER_ERROR)
    (hack : ∀ i t, t.state = .PENDING_DATA →
      (parser i t).state ≠ .PENDING_DATA ∧ (parser i t).state ≠ .PARSER_ERROR) :
    ∀ fuel, 4 * (size * nmemb) + 3 ≤ fuel →
      ∃ res, jf_thread_buffer_callback k D fuel parser payload size nmemb r s_tb = some res ∧
        res.ret = size * nmemb ∧ res.deposits.flatten = payload ∧
        (∀ c ∈ res.deposits, c ≠ []) ∧ res.r = r ∧ res.s_tb.mut_locked = false := by
  intro fuel hf
  obtain ⟨f, rfl⟩ : ∃ f, fuel = f + 1 := ⟨fuel - 1, by omega⟩
  unfold jf_thread_buffer_callback
  rw [Nat.mod_eq_of_lt hfit, callback_run_entry k D payload _ f parser 0 s_tb r [] 0 hmut]
  obtain ⟨res, new, hrun, hret, hr, hm, hdep, hjoin, hne⟩ :=
    callback_run_delivers k D payload (size * nmemb) hD hlen (size * nmemb) 0 f parser
      { s_tb with mut_locked := true } r [] 0 (by omega) (by omega) (by omega)
      (by simpa using hst) hack
  refine ⟨res, hrun, hret, ?_, ?_, hr, hm⟩
  · rw [hdep]; simpa using hjoin
  · intro c hc
    rw [hdep] at hc
    exact hne c (by simpa using hc)

/-- Witness of C1: seven bytes through a slot of four, whose chunks hold two bytes each. -/
theorem deposit_delivers_payload_in_order_witness :
    ∃ res, jf_thread_buffer_callback sample_codes 4 40 parser_ok [1, 2, 3, 4, 5, 6, 7] 1 7
        jf_reply_new sample_tb = some res ∧
      res.ret = 1 * 7 ∧ res.deposits.flatten = [1, 2, 3, 4, 5, 6, 7] ∧
      (∀ c ∈ res.deposits, c ≠ []) ∧ res.r = jf_reply_new ∧ res.s_tb.mut_locked = false :=
  deposit_delivers_payload_in_order sample_codes 4 parser_ok [1, 2, 3, 4, 5, 6, 7] 1 7
    jf_reply_new sample_tb (by decide) (by norm_num) (by decide) (by decide) (by decide)
    (by intro i t _; simp [parser_ok]) 40 (by decide)

theorem strndup_of_no_nul (s : List Nat) (n : Nat) (h : ∀ b ∈ s.take n, b ≠ 0) :
    strndup s n = s.take n := by
  unfold strndup
  rw [List.takeWhile_eq_self_iff]
  intro b hb
  simpa using h b hb

/-- C2 (amended): when the state is PARSER_ERROR as `jf_thread_buffer_callback` is about to
write (at its first chunk, for a payload with `size * nmemb > 0` and the mutex free, or at a
later one), the call returns 0 with no wait and no deposit, `s_tb.data`, `s_tb.used` and
`s_tb.state` are as before, and the reply has size `JF_REPLY_ERROR_PARSER` and as payload the
first `s_tb.used` bytes of `s_tb.data` cut at their first NUL, which is all of them when none
is NUL. -/
theorem deposit_fails_fast_on_error (k : jf_reply_error_codes) (D : Nat)
    (parser : Nat → jf_thread_buffer → jf_thread_buffer) (payload : List Nat) (r : jf_reply)
    (s_tb : jf_thread_buffer) (hst : s_tb.state = .PARSER_ERROR) :
    (∀ size nmemb fuel, 0 < (size * nmemb) % 2 ^ 64 → s_tb.mut_locked = false → 4 ≤ fuel →
      ∃ res, jf_thread_buffer_callback k D fuel parser payload size nmemb r s_tb = some res ∧
        res.ret = 0 ∧ res.waits = 0 ∧ res.deposits = [] ∧
        res.s_tb.data = s_tb.data ∧ res.s_tb.used = s_tb.used ∧
        res.s_tb.state = .PARSER_ERROR ∧
        res.r = { payload := some (strndup s_tb.data s_tb.used), size := k.PARSER }) ∧
    (∀ real_size written_data fuel deposits waits,
      callback_run k D payload real_size (fuel + 2) parser
        { pc := .inner, written_data := written_data, s_tb := s_tb, r := r } deposits waits =
      some { ret := 0, s_tb := s_tb,
             r := { payload := some (strndup s_tb.data s_tb.used), size := k.PARSER },
             deposits := deposits, waits := waits }) ∧
    strndup s_tb.data s_tb.used = (s_tb.data.take s_tb.used).takeWhile (fun b => b != 0) ∧
    ((∀ b ∈ s_tb.data.take s_tb.used, b ≠ 0) →
      strndup s_tb.data s_tb.used = s_tb.data.take s_tb.used) := by
  refine ⟨?_, ?_, rfl, strndup_of_no_nul _ _⟩
  · intro size nmemb fuel hR hmut hf
    obtain ⟨f, rfl⟩ : ∃ f, fuel = f + 4 := ⟨fuel - 4, by omega⟩
    unfold jf_thread_buffer_callback
    rw [callback_run_entry k D payload _ (f + 3) parser 0 s_tb r [] 0 hmut,
      callback_run_outer_more k D payload _ (f + 2) parser 0 _ r [] 0 hR,
      callback_run_inner_error k D payload _ f parser 0 _ r [] 0 (by simpa using hst)]
    exact ⟨_, rfl, rfl, rfl, rfl, rfl, rfl, hst, rfl⟩
  · intro real_size written_data fuel deposits waits
    exact callback_run_inner_error k D payload real_size fuel parser written_data s_tb r
      deposits waits hst

/-- Witness of C2 on `error_tb`: the reply carries `"hi"`. -/
theorem deposit_fails_fast_on_error_witness :
    (∃ res, jf_thread_buffer_callback sample_codes 8 4 parser_ok [1, 2] 1 2 jf_reply_new
        error_tb = some res ∧
      res.ret = 0 ∧ res.waits = 0 ∧ res.deposits = [] ∧
      res.s_tb.data = error_tb.data ∧ res.s_tb.used = error_tb.used ∧
      res.s_tb.state = .PARSER_ERROR ∧
      res.r = { payload := some [104, 105], size := -8 }) ∧
    error_tb.state = .PARSER_ERROR :=
  ⟨(deposit_fails_fast_on_error sample_codes 8 parser_ok [1, 2] jf_reply_new error_tb
      (by decide)).1 1 2 4 (by decide) (by decide) (by decide), by decide⟩

/-- Counterexample to C2 as stated: on `error_tb` the reply's payload is `"hi"`, not the first
`s_tb.used = 4` bytes of `s_tb.data`. -/
theorem deposit_fails_fast_on_error_counterexample :
    ∃ res, jf_thread_buffer_callback sample_codes 8 4 parser_ok [1, 2] 1 2 jf_reply_new
        error_tb = some res ∧
      error_tb.state = .PARSER_ERROR ∧ res.ret = 0 ∧
      res.r.payload = some [104, 105] ∧
      res.r.payload ≠ some (error_tb.data.take error_tb.used) := by
  refine ⟨_, rfl, ?_⟩
  decide

theorem parser_code_is_error (k : jf_reply_error_codes) (hk : k.valid) :
    k.PARSER < 0 ∧ k.PARSER ≠ k.STUB ∧ k.PARSER ≠ k.HTTP_401 ∧ k.PARSER ≠ k.MALLOC ∧
      k.PARSER ≠ k.CONCAT ∧ k.PARSER ≠ k.X_EMBY_AUTH ∧ k.PARSER ≠ k.NETWORK := by
  obtain ⟨hnd, hneg⟩ := hk
  simp only [List.nodup_cons, List.mem_cons, List.mem_singleton, not_or] at hnd
  refine ⟨hneg _ (by simp), ?_, ?_, ?_, ?_, ?_, ?_⟩ <;> intro h <;> simp_all

/-- C3: when the calls of `jf_thread_buffer_callback` left the reply with size
`JF_REPLY_ERROR_PARSER` and the parser's message as payload, and `curl_easy_perform` returns a
result other than `CURLE_OK`, `jf_net_request` returns that reply unchanged: its size is
`JF_REPLY_ERROR_PARSER`, not `JF_REPLY_ERROR_NETWORK`, its payload is the parser's message, and
`jf_reply_error_string` of it is that message. -/
theorem parse_error_not_reported_as_network_error (k : jf_reply_error_codes) (env : net_env)
    (request_type : jf_request_type) (s_tb : jf_thread_buffer) (out : curl_outcome)
    (msg : List Nat) (hk : k.valid)
    (hperform : env.curl_easy_perform (request_dispatch request_type s_tb).1
      (request_dispatch request_type s_tb).2 jf_reply_new = some out)
    (hreply : out.reply = { payload := some msg, size := k.PARSER })
    (hresult : out.result ≠ 0) :
    ∃ reply tb, jf_net_request k env request_type s_tb = some (reply, tb) ∧
      reply.size = k.PARSER ∧ reply.size ≠ k.NETWORK ∧ reply.payload = some msg ∧
      jf_reply_error_string k (some reply) = some msg := by
  obtain ⟨hneg, h1, h2, h3, h4, h5, h6⟩ := parser_code_is_error k hk
  refine ⟨out.reply, out.s_tb, ?_, by rw [hreply], by rw [hreply]; exact h6, by rw [hreply], ?_⟩
  · simp [jf_net_request, hperform, after_perform, hresult, JF_REPLY_PTR_HAS_ERROR, hreply,
      hneg]
  · rw [hreply]
    simp [jf_reply_error_string, h1, h2, h3, h4, h5, not_le.mpr hneg]

/-- Witness of C3: the parser fails on the first chunk of a body of ten bytes; the callback
reports it at the second chunk and the transfer is aborted. -/
theorem parse_error_not_reported_as_network_error_witness :
    ∃ reply tb,
      jf_net_request sample_codes
        (sample_env sample_codes 8 (parser_fails_at 0) parser_ok
          [[123, 93, 1, 2, 3, 4, 5, 6, 7, 8]] 200)
        .JF_REQUEST_SAX sample_tb = some (reply, tb) ∧
      reply.size = sample_codes.PARSER ∧ reply.size ≠ sample_codes.NETWORK ∧
      reply.payload = some (cstr "bad") ∧
      jf_reply_error_string sample_codes (some reply) = some (cstr "bad") :=
  parse_error_not_reported_as_network_error sample_codes
    (sample_env sample_codes 8 (parser_fails_at 0) parser_ok
      [[123, 93, 1, 2, 3, 4, 5, 6, 7, 8]] 200)
    .JF_REQUEST_SAX sample_tb
    { result := 23, status_code := 200,
      s_tb := { data := [98, 97, 100, 0, 3, 4, 0, 0], used := 3, promiscuous_context := false,
                state := .PARSER_ERROR, item_count := 0, parsed_ids := [], mut_locked := true },
      reply := { payload := some (cstr "bad"), size := sample_codes.PARSER } }
    (cstr "bad") (by decide) (by decide) (by decide) (by decide)

/-- C4 on the code: a SAX request whose body `{]` arrives in one block, the transfer ends
with `CURLE_OK` and status 200, and the parser fails on that last chunk, so that the state is
PARSER_ERROR when `jf_thread_buffer_wait_parsing_done` returns. `jf_net_request` returns the
reply of `jf_reply_new`, size 0 and no payload: the parse error is not reported. -/
theorem parse_error_after_transfer_is_lost :
    jf_net_request sample_codes
        (sample_env sample_codes 8 parser_ok (parser_fails_at 0) [[123, 93]] 200)
        .JF_REQUEST_SAX sample_tb =
      some ({ payload := none, size := 0 },
        { data := [98, 97, 100, 0, 0, 0, 0, 0], used := 3, promiscuous_context := false,
          state := .PARSER_ERROR, item_count := 0, parsed_ids := [], mut_locked := false }) ∧
    (0 : Int) ≠ sample_codes.PARSER ∧
    JF_REPLY_PTR_HAS_ERROR { payload := none, size := 0 } = false := by
  decide

/-! ### strict alternation -/

theorem callback_step_write (k : jf_reply_error_codes) (D : Nat) (payload : List Nat)
    (R : Nat) (c c' : callback_config) (chunk : List Nat)
    (h : callback_step k D payload R c = some (.write chunk, c')) :
    c.pc = .inner ∧ c.s_tb.state ≠ .PENDING_DATA ∧ c.s_tb.state ≠ .PARSER_ERROR ∧
      c'.s_tb = send_data D payload R c.written_data c.s_tb ∧
      chunk = c'.s_tb.data.take c'.s_tb.used := by
  unfold callback_step at h
  split at h
  · split at h <;> simp at h
  · split at h <;> simp at h
  · rename_i hpc
    split at h
    · simp at h
    · split at h
      · simp at h
      · rename_i h1 h2
        simp only [Option.some.injEq, Prod.mk.injEq, callback_event.write.injEq] at h
        obtain ⟨hch, hc⟩ := h
        subst hc
        exact ⟨hpc, h1, h2, rfl, hch.symm⟩
  · split at h <;> simp at h
  · simp at h

theorem callback_step_not_write (k : jf_reply_error_codes) (D : Nat) (payload : List Nat)
    (R : Nat) (c c' : callback_config) (ev : callback_event)
    (h : callback_step k D payload R c = some (ev, c')) (hev : ∀ chunk, ev ≠ .write chunk) :
    ev = .silent ∧ c'.s_tb.data = c.s_tb.data ∧ c'.s_tb.used = c.s_tb.used ∧
      c'.s_tb.state = c.s_tb.state := by
  unfold callback_step at h
  split at h
  · split at h
    · simp at h
    · simp only [Option.some.injEq, Prod.mk.injEq] at h
      obtain ⟨h1, h2⟩ := h
      subst h2
      exact ⟨h1.symm, rfl, rfl, rfl⟩
  · split at h <;>
    · simp only [Option.some.injEq, Prod.mk.injEq] at h
      obtain ⟨h1, h2⟩ := h
      subst h2
      exact ⟨h1.symm, rfl, rfl, rfl⟩
  · split at h
    · simp only [Option.some.injEq, Prod.mk.injEq] at h
      obtain ⟨h1, h2⟩ := h
      subst h2
      exact ⟨h1.symm, rfl, rfl, rfl⟩
    · split at h
      · simp only [Option.some.injEq, Prod.mk.injEq] at h
        obtain ⟨h1, h2⟩ := h
        subst h2
        exact ⟨h1.symm, rfl, rfl, rfl⟩
      · simp only [Option.some.injEq, Prod.mk.injEq] at h
        exact absurd h.1.symm (hev _)
  · split at h
    · simp at h
    · simp only [Option.some.injEq, Prod.mk.injEq] at h
      obtain ⟨h1, h2⟩ := h
      subst h2
      exact ⟨h1.symm, rfl, rfl, rfl⟩
  · simp at h

theorem callback_step_keeps_pending (k : jf_reply_error_codes) (D : Nat) (payload : List Nat)
    (R : Nat) (c c' : callback_config) (ev : callback_event)
    (h : callback_step k D payload R c = some (ev, c'))
    (hp : c.s_tb.state = .PENDING_DATA) : c'.s_tb.state = .PENDING_DATA := by
  by_cases hev : ∃ chunk, ev = .write chunk
  · obtain ⟨chunk, rfl⟩ := hev
    exact absurd hp (callback_step_write k D payload R c c' chunk h).2.1
  · rw [(callback_step_not_write k D payload R c c' ev h
      (fun chunk he => hev ⟨chunk, he⟩)).2.2.2, hp]

theorem interleaving_tail (k : jf_reply_error_codes) (D : Nat) (payload : List Nat) (R : Nat)
    (x : transition) (t : List transition) (h : interleaving k D payload R (x :: t)) :
    interleaving k D payload R t := by
  cases t with
  | nil => trivial
  | cons y rest => exact h.2.2

theorem interleaving_head (k : jf_reply_error_codes) (D : Nat) (payload : List Nat) (R : Nat)
    (x : transition) (t : List transition) (h : interleaving k D payload R (x :: t)) :
    channel_step k D payload R x.pre x.ev x.post := by
  cases t with
  | nil => exact h
  | cons y rest => exact h.1

theorem interleaving_suffix (k : jf_reply_error_codes) (D : Nat) (payload : List Nat) (R : Nat)
    (t1 t2 : List transition) (h : interleaving k D payload R (t1 ++ t2)) :
    interleaving k D payload R t2 := by
  induction t1 with
  | nil => exact h
  | cons x t1 ih => exact ih (interleaving_tail k D payload R x _ h)

/-- In an interleaving that starts after a transition ending in PENDING_DATA and leads to a
transition starting in another state, some step of the parser thread in between moved the
state out of PENDING_DATA. -/
theorem interleaving_acknowledged (k : jf_reply_error_codes) (D : Nat) (payload : List Nat)
    (R : Nat) (w2 : transition) (t3 : List transition) :
    ∀ (t2 : List transition) (w1 : transition),
      interleaving k D payload R (w1 :: (t2 ++ w2 :: t3)) →
      w1.post.s_tb.state = .PENDING_DATA → w2.pre.s_tb.state ≠ .PENDING_DATA →
      ∃ x ∈ t2, x.ev = .consumer ∧ x.pre.s_tb.state = .PENDING_DATA ∧
        x.post.s_tb.state ≠ .PENDING_DATA := by
  intro t2
  induction t2 with
  | nil =>
    intro w1 h h1 h2
    have : w1.post = w2.pre := h.2.1
    rw [this] at h1
    exact absurd h1 h2
  | cons y t2 ih =>
    intro w1 h h1 h2
    have hlink : w1.post = y.pre := h.2.1
    have hrest : interleaving k D payload R (y :: (t2 ++ w2 :: t3)) := h.2.2
    have hy := interleaving_head k D payload R y _ hrest
    have hypre : y.pre.s_tb.state = .PENDING_DATA := by rw [← hlink]; exact h1
    by_cases hpost : y.post.s_tb.state = .PENDING_DATA
    · obtain ⟨x, hx, hx'⟩ := ih y hrest hpost h2
      exact ⟨x, List.mem_cons_of_mem _ hx, hx'⟩
    · rcases hy with hprod | ⟨hev, _⟩
      · exact absurd (callback_step_keeps_pending k D payload R _ _ _ hprod hypre) hpost
      · exact ⟨y, List.mem_cons_self _ _, hev, hypre, hpost⟩

/-- C5: in every interleaving of the steps of `jf_thread_buffer_callback` with steps of the
parser thread (which acts only while the mutex is free): a deposit is a step of the transfer
thread taken with the mutex held in a state other than PENDING_DATA, and it leaves the state
PENDING_DATA with the chunk in the slot; the other steps of the transfer thread leave
`s_tb.data`, `s_tb.used` and `s_tb.state` as they are; and between any two deposits some step
of the parser thread moved the state out of PENDING_DATA. -/
theorem strict_alternation (k : jf_reply_error_codes) (D : Nat) (payload : List Nat)
    (real_size : Nat) :
    (∀ c chunk c', channel_step k D payload real_size c (.write chunk) c' →
      c.s_tb.state ≠ .PENDING_DATA ∧ c'.s_tb.state = .PENDING_DATA ∧
      chunk = c'.s_tb.data.take c'.s_tb.used) ∧
    (∀ c c', channel_step k D payload real_size c .silent c' →
      c'.s_tb.data = c.s_tb.data ∧ c'.s_tb.used = c.s_tb.used ∧
      c'.s_tb.state = c.s_tb.state) ∧
    (∀ t1 w1 t2 w2 t3 chunk1 chunk2,
      interleaving k D payload real_size (t1 ++ w1 :: (t2 ++ w2 :: t3)) →
      w1.ev = .write chunk1 → w2.ev = .write chunk2 →
      ∃ x ∈ t2, x.ev = .consumer ∧ x.pre.s_tb.state = .PENDING_DATA ∧
        x.post.s_tb.state ≠ .PENDING_DATA) := by
  have hwrite : ∀ c chunk c', channel_step k D payload real_size c (.write chunk) c' →
      c.s_tb.state ≠ .PENDING_DATA ∧ c'.s_tb.state = .PENDING_DATA ∧
      chunk = c'.s_tb.data.take c'.s_tb.used := by
    intro c chunk c' h
    rcases h with h | ⟨hev, _⟩
    · obtain ⟨_, h1, _, h3, h4⟩ := callback_step_write k D payload real_size c c' chunk h
      exact ⟨h1, by rw [h3]; rfl, h4⟩
    · exact absurd hev (by simp)
  refine ⟨hwrite, ?_, ?_⟩
  · intro c c' h
    rcases h with h | ⟨hev, _⟩
    · exact (callback_step_not_write k D payload real_size c c' .silent h (by simp)).2
    · exact absurd hev (by simp)
  · intro t1 w1 t2 w2 t3 chunk1 chunk2 h h1 h2
    have hsuf := interleaving_suffix k D payload real_size t1 _ h
    have hw1 := interleaving_head k D payload real_size w1 _ hsuf
    have hw2 := interleaving_head k D payload real_size w2 _
      (interleaving_suffix k D payload real_size (w1 :: t2) (w2 :: t3) hsuf)
    rw [h1] at hw1
    rw [h2] at hw2
    exact interleaving_acknowledged k D payload real_size w2 t3 t2 w1 hsuf
      (hwrite _ _ _ hw1).2.1 (hwrite _ _ _ hw2).1

/-- Witness of C5: on `sample_trace` the two deposits are separated by an acknowledgement of
the parser thread. -/
theorem strict_alternation_witness :
    interleaving sample_codes 4 [1, 2, 3] 3
      (sample_trace.take 2 ++ sample_transition 2 ::
        ((sample_trace.drop 3).take 4 ++ sample_transition 7 :: sample_trace.drop 8)) ∧
    (sample_transition 2).ev = .write [1, 2] ∧ (sample_transition 7).ev = .write [3] ∧
    ∃ x ∈ (sample_trace.drop 3).take 4, x.ev = .consumer ∧
      x.pre.s_tb.state = .PENDING_DATA ∧ x.post.s_tb.state ≠ .PENDING_DATA :=
  ⟨by decide, by decide, by decide,
    (strict_alternation sample_codes 4 [1, 2, 3] 3).2.2 (sample_trace.take 2)
      (sample_transition 2) ((sample_trace.drop 3).take 4) (sample_transition 7)
      (sample_trace.drop 8) [1, 2] [3] (by decide) (by decide) (by decide)⟩

/-! ### reset of the channel, consumption mode -/

theorem callback_step_keeps_mode (k : jf_reply_error_codes) (D : Nat) (payload : List Nat)
    (R : Nat) (c c' : callback_config) (ev : callback_event)
    (h : callback_step k D payload R c = some (ev, c')) :
    c'.s_tb.promiscuous_context = c.s_tb.promiscuous_context ∧
      c'.s_tb.item_count = c.s_tb.item_count := by
  unfold callback_step at h
  split at h
  · split at h
    · simp at h
    · simp only [Option.some.injEq, Prod.mk.injEq] at h
      rw [← h.2]; exact ⟨rfl, rfl⟩
  · split at h <;>
    · simp only [Option.some.injEq, Prod.mk.injEq] at h
      rw [← h.2]; exact ⟨rfl, rfl⟩
  · split at h
    · simp only [Option.some.injEq, Prod.mk.injEq] at h
      rw [← h.2]; exact ⟨rfl, rfl⟩
    · split at h <;>
      · simp only [Option.some.injEq, Prod.mk.injEq] at h
        rw [← h.2]; exact ⟨rfl, rfl⟩
  · split at h
    · simp at h
    · simp only [Option.some.injEq, Prod.mk.injEq] at h
      rw [← h.2]; exact ⟨rfl, rfl⟩
  · simp at h

theorem callback_run_keeps_mode (k : jf_reply_error_codes) (D : Nat) (payload : List Nat)
    (R : Nat) :
    ∀ (fuel : Nat) (parser : Nat → jf_thread_buffer → jf_thread_buffer) (c : callback_config)
      (deposits : List (List Nat)) (waits : Nat) (res : callback_result),
      (∀ i t, (parser i t).promiscuous_context = t.promiscuous_context) →
      callback_run k D payload R fuel parser c deposits waits = some res →
      res.s_tb.promiscuous_context = c.s_tb.promiscuous_context := by
  intro fuel
  induction fuel with
  | zero => intro parser c deposits waits res _ h; simp [callback_run] at h
  | succ fuel ih =>
    intro parser c deposits waits res hp h
    rw [callback_run] at h
    split at h
    · simp only [Option.some.injEq] at h
      rw [← h]
    · split at h
      · simp at h
      · rename_i ev c' hstep
        rw [ih _ _ _ _ _ (fun i t => hp (i + 1) t) h,
          (callback_step_keeps_mode k D payload R _ _ _ hstep).1]
        simp [parser_acts, hp]
    · split at h
      · simp at h
      · rename_i c' hstep
        rw [ih _ _ _ _ _ hp h, (callback_step_keeps_mode k D payload R _ _ _ hstep).1]
      · rename_i ev c' _ hstep
        rw [ih _ _ _ _ _ hp h, (callback_step_keeps_mode k D payload R _ _ _ hstep).1]

theorem wait_parsing_loop_keeps_mode :
    ∀ (fuel : Nat) (parser : Nat → jf_thread_buffer → jf_thread_buffer)
      (tb tb' : jf_thread_buffer),
      (∀ i t, (parser i t).promiscuous_context = t.promiscuous_context) →
      wait_parsing_loop fuel parser tb = some tb' →
      tb'.promiscuous_context = tb.promiscuous_context := by
  intro fuel
  induction fuel with
  | zero => intro parser tb tb' _ h; simp [wait_parsing_loop] at h
  | succ fuel ih =>
    intro parser tb tb' hp h
    rw [wait_parsing_loop] at h
    split at h
    · rw [ih _ _ _ (fun i t => hp (i + 1) t) h]; simp [parser_acts, hp]
    · rw [ih _ _ _ (fun i t => hp (i + 1) t) h]; simp [parser_acts, hp]
    · simp only [Option.some.injEq] at h
      rw [← h]

/-- C7: the dispatch on the request type in `jf_net_request` sets `promiscuous_context` to
true for JF_REQUEST_SAX_PROMISCUOUS and to false for JF_REQUEST_SAX, whatever it was, leaves
the channel as it is for JF_REQUEST_IN_MEMORY, and changes no other member; no step of
`jf_thread_buffer_callback` and no call of it changes `promiscuous_context`, and neither does
the rest of `jf_net_request`: when libcurl and the parser thread leave the member alone, its
value at the return is the one the dispatch set. -/
theorem consumption_mode_fixed_by_request_type (k : jf_reply_error_codes)
    (s_tb : jf_thread_buffer) :
    (request_dispatch .JF_REQUEST_SAX_PROMISCUOUS s_tb).2.promiscuous_context = true ∧
    (request_dispatch .JF_REQUEST_SAX s_tb).2.promiscuous_context = false ∧
    (request_dispatch .JF_REQUEST_IN_MEMORY s_tb).2 = s_tb ∧
    (∀ t, (request_dispatch t s_tb).2 =
      { s_tb with promiscuous_context := (request_dispatch t s_tb).2.promiscuous_context }) ∧
    (∀ D payload real_size c ev c', callback_step k D payload real_size c = some (ev, c') →
      c'.s_tb.promiscuous_context = c.s_tb.promiscuous_context) ∧
    (∀ D fuel parser payload size nmemb r tb res,
      (∀ i t, (parser i t).promiscuous_context = t.promiscuous_context) →
      jf_thread_buffer_callback k D fuel parser payload size nmemb r tb = some res →
      res.s_tb.promiscuous_context = tb.promiscuous_context) ∧
    (∀ (env : net_env) t reply tb,
      (∀ w tb0 r0 out, env.curl_easy_perform w tb0 r0 = some out →
        out.s_tb.promiscuous_context = tb0.promiscuous_context) →
      (∀ i t, (env.parser i t).promiscuous_context = t.promiscuous_context) →
      jf_net_request k env t s_tb = some (reply, tb) →
      tb.promiscuous_context = (request_dispatch t s_tb).2.promiscuous_context) := by
  refine ⟨rfl, rfl, rfl, ?_, ?_, ?_, ?_⟩
  · intro t
    cases t <;> rfl
  · intro D payload real_size c ev c' h
    exact (callback_step_keeps_mode k D payload real_size c c' ev h).1
  · intro D fuel parser payload size nmemb r tb res hp h
    exact callback_run_keeps_mode k D payload _ fuel parser _ [] 0 res hp h
  · intro env t reply tb hcurl hp h
    unfold jf_net_request at h
    simp only at h
    split at h
    · simp at h
    · rename_i out hout
      rw [← hcurl _ _ _ _ hout]
      unfold after_perform at h
      split at h
      · split at h <;>
        · simp only [Option.some.injEq, Prod.mk.injEq] at h
          rw [← h.2]
      · split at h
        · simp at h
        · rename_i tb2 hw
          simp only [Option.some.injEq, Prod.mk.injEq] at h
          rw [← h.2]
          split at hw
          · unfold jf_thread_buffer_wait_parsing_done at hw
            split at hw
            · simp at hw
            · have := wait_parsing_loop_keeps_mode _ _ _ _ hp hw
              simpa using this
          · simp only [Option.some.injEq] at hw
            rw [hw]

theorem transfer_blocks_keeps_mode (k : jf_reply_error_codes) (D fuel : Nat) :
    ∀ (blocks : List (List Nat)) (parser : Nat → jf_thread_buffer → jf_thread_buffer)
      (tb : jf_thread_buffer) (r : jf_reply) (res : Bool × jf_thread_buffer × jf_reply),
      (∀ i t, (parser i t).promiscuous_context = t.promiscuous_context) →
      transfer_blocks k D fuel parser blocks tb r = some res →
      res.2.1.promiscuous_context = tb.promiscuous_context := by
  intro blocks
  induction blocks with
  | nil =>
    intro parser tb r res _ h
    simp only [transfer_blocks, Option.some.injEq] at h
    rw [← h]
  | cons b bs ih =>
    intro parser tb r res hp h
    rw [transfer_blocks] at h
    split at h
    · simp at h
    · rename_i cres hcall
      have hc := callback_run_keeps_mode k D b _ fuel parser _ [] 0 cres hp hcall
      split at h
      · simp only [Option.some.injEq] at h
        rw [← h]; exact hc
      · rw [ih _ _ _ _ (fun i t => hp (i + cres.waits) t) h]; exact hc

theorem sample_perform_keeps_mode (k : jf_reply_error_codes) (D fuel : Nat)
    (parser : Nat → jf_thread_buffer → jf_thread_buffer) (blocks : List (List Nat))
    (status_code : Int)
    (hp : ∀ i t, (parser i t).promiscuous_context = t.promiscuous_context)
    (w : write_function) (tb : jf_thread_buffer) (r : jf_reply) (out : curl_outcome)
    (h : sample_perform k D fuel parser blocks status_code w tb r = some out) :
    out.s_tb.promiscuous_context = tb.promiscuous_context := by
  unfold sample_perform at h
  split at h
  · simp only [Option.some.injEq] at h
    rw [← h]
  · split at h
    · simp at h
    · rename_i aborted tb' r' ht
      simp only [Option.some.injEq] at h
      rw [← h]
      exact transfer_blocks_keeps_mode k D fuel blocks parser tb r _ hp ht

/-- Witness of C7: a plain SAX request on a channel that an earlier promiscuous request left
with `promiscuous_context` set, carried through `jf_net_request`. -/
theorem consumption_mode_fixed_by_request_type_witness :
    ∃ reply tb,
      jf_net_request sample_codes (sample_env sample_codes 8 parser_ok parser_done [[1, 2]] 200)
        .JF_REQUEST_SAX { sample_tb with promiscuous_context := true } = some (reply, tb) ∧
      tb.promiscuous_context = false :=
  ⟨{ payload := none, size := 0 },
   { data := [1, 2, 0, 0, 0, 0, 0, 0], used := 0, promiscuous_context := false,
     state := .CLEAR, item_count := 0, parsed_ids := [], mut_locked := false },
   by decide,
   (consumption_mode_fixed_by_request_type sample_codes
      { sample_tb with promiscuous_context := true }).2.2.2.2.2.2
      (sample_env sample_codes 8 parser_ok parser_done [[1, 2]] 200) .JF_REQUEST_SAX
      { payload := none, size := 0 }
      { data := [1, 2, 0, 0, 0, 0, 0, 0], used := 0, promiscuous_context := false,
        state := .CLEAR, item_count := 0, parsed_ids := [], mut_locked := false }
      (fun w tb0 r0 out h =>
        sample_perform_keeps_mode sample_codes 8 64 parser_ok [[1, 2]] 200
          (fun _ _ => rfl) w tb0 r0 out h)
      (fun _ _ => rfl) (by decide)⟩

end Net

namespace Json

/-! ## `json.h`: properties of the macros -/

theorem set_field_same (c : jf_sax_context) (f : sax_field) (p : Nat) :
    (c.set_field f p).field f = p := by
  cases f <;> rfl

theorem set_field_other (c : jf_sax_context) (f g : sax_field) (p : Nat) (h : g ≠ f) :
    (c.set_field f p).field g = c.field g := by
  cases f <;> cases g <;> first | rfl | exact absurd rfl h

theorem set_field_len (c : jf_sax_context) (f g : sax_field) (p : Nat) :
    (c.set_field f p).field_len g = c.field_len g := by
  cases f <;> cases g <;> rfl

theorem set_field_copy_buffer (c : jf_sax_context) (f : sax_field) (p : Nat) :
    (c.set_field f p).copy_buffer = c.copy_buffer := by
  cases f <;> rfl

theorem set_field_restore (c : jf_sax_context) (f : sax_field) (p : Nat) :
    (c.set_field f p).set_field f (c.field f) = c := by
  cases f <;> rfl

theorem copy_used (f : sax_field) (s : copy_state) :
    (JF_SAX_CONTEXT_COPY f s).used = s.used + s.context.field_len f := by
  unfold JF_SAX_CONTEXT_COPY
  split
  · rfl
  · have : s.context.field_len f = 0 := by omega
    rw [this]; rfl

theorem copy_len (f g : sax_field) (s : copy_state) :
    (JF_SAX_CONTEXT_COPY f s).context.field_len g = s.context.field_len g := by
  unfold JF_SAX_CONTEXT_COPY
  split
  · exact set_field_len _ _ _ _
  · rfl

theorem copy_copy_buffer (f : sax_field) (s : copy_state) :
    (JF_SAX_CONTEXT_COPY f s).context.copy_buffer = s.context.copy_buffer := by
  unfold JF_SAX_CONTEXT_COPY
  split
  · exact set_field_copy_buffer _ _ _
  · rfl

theorem copy_other (f g : sax_field) (s : copy_state) (h : g ≠ f) :
    (JF_SAX_CONTEXT_COPY f s).context.field g = s.context.field g := by
  unfold JF_SAX_CONTEXT_COPY
  split
  · exact set_field_other _ _ _ _ h
  · rfl

theorem copy_fields_cons (f : sax_field) (fs : List sax_field) (s : copy_state) :
    copy_fields (f :: fs) s = copy_fields fs (JF_SAX_CONTEXT_COPY f s) := rfl

theorem copy_fields_append (fs gs : List sax_field) (s : copy_state) :
    copy_fields (fs ++ gs) s = copy_fields gs (copy_fields fs s) := by
  simp [copy_fields, List.foldl_append]

theorem copy_fields_len (fs : List sax_field) (g : sax_field) :
    ∀ s : copy_state, (copy_fields fs s).context.field_len g = s.context.field_len g := by
  induction fs with
  | nil => intro s; rfl
  | cons f fs ih => intro s; rw [copy_fields_cons, ih, copy_len]

theorem copy_fields_copy_buffer (fs : List sax_field) :
    ∀ s : copy_state, (copy_fields fs s).context.copy_buffer = s.context.copy_buffer := by
  induction fs with
  | nil => intro s; rfl
  | cons f fs ih => intro s; rw [copy_fields_cons, ih, copy_copy_buffer]

theorem copy_fields_used (fs : List sax_field) :
    ∀ s : copy_state,
      (copy_fields fs s).used = s.used + (fs.map s.context.field_len).sum := by
  induction fs with
  | nil => intro s; simp [copy_fields]
  | cons f fs ih =>
    intro s
    rw [copy_fields_cons, ih, copy_used, List.map_cons, List.sum_cons]
    have : (fs.map (JF_SAX_CONTEXT_COPY f s).context.field_len) =
        fs.map s.context.field_len := by
      apply List.map_congr_left
      intro g _
      exact copy_len f g s
    rw [this]; omega

theorem copy_fields_other (fs : List sax_field) (g : sax_field) (h : g ∉ fs) :
    ∀ s : copy_state, (copy_fields fs s).context.field g = s.context.field g := by
  induction fs with
  | nil => intro s; rfl
  | cons f fs ih =>
    intro s
    rw [copy_fields_cons, ih (fun hm => h (List.mem_cons_of_mem _ hm)),
      copy_other f g s (fun e => h (e ▸ List.mem_cons_self _ _))]

theorem copy_fields_position (pre post : List sax_field) (f : sax_field) (s : copy_state)
    (hpost : f ∉ post) (hlen : 0 < s.context.field_len f) :
    (copy_fields (pre ++ f :: post) s).context.field f =
      s.context.copy_buffer + (s.used + (pre.map s.context.field_len).sum) := by
  rw [copy_fields_append, copy_fields_cons, copy_fields_other post f hpost]
  have hl : 0 < (copy_fields pre s).context.field_len f := by
    rw [copy_fields_len]; exact hlen
  unfold JF_SAX_CONTEXT_COPY
  rw [if_pos hl]
  simp only
  rw [set_field_same, copy_fields_copy_buffer, copy_fields_used]

/-- C8: `JF_SAX_CONTEXT_COPY(field)` with `field_len > 0` leaves the field pointing at
`copy_buffer + used`, keeps `field_len` and adds `field_len` to `used`; with `field_len = 0`
it changes nothing at all (pointer, `used`, memory); in both cases the context differs from
the old one at most in that pointer. Hence after the macro has been expanded on several
fields in a row, `used` has grown by the sum of their lengths, a non-empty field that is not
copied again points at `copy_buffer + used` plus the lengths of the fields before it, and two
such fields occupy ranges that do not overlap. -/
theorem copy_repoints_and_advances (f : sax_field) (s : copy_state) :
    (0 < s.context.field_len f →
      (JF_SAX_CONTEXT_COPY f s).context.field f = s.context.copy_buffer + s.used ∧
      (JF_SAX_CONTEXT_COPY f s).context.field_len f = s.context.field_len f ∧
      (JF_SAX_CONTEXT_COPY f s).used = s.used + s.context.field_len f) ∧
    (s.context.field_len f = 0 → JF_SAX_CONTEXT_COPY f s = s) ∧
    (JF_SAX_CONTEXT_COPY f s).context.set_field f (s.context.field f) = s.context ∧
    (∀ fs, (copy_fields fs s).used = s.used + (fs.map s.context.field_len).sum) ∧
    (∀ pre post, f ∉ post → 0 < s.context.field_len f →
      (copy_fields (pre ++ f :: post) s).context.field f =
        s.context.copy_buffer + (s.used + (pre.map s.context.field_len).sum) ∧
      (copy_fields (pre ++ f :: post) s).context.field_len f = s.context.field_len f) ∧
    (∀ pre mid post g, f ∉ mid → f ≠ g → f ∉ post → g ∉ post →
      0 < s.context.field_len f → 0 < s.context.field_len g →
      (copy_fields (pre ++ f :: (mid ++ g :: post)) s).context.field f +
          (copy_fields (pre ++ f :: (mid ++ g :: post)) s).context.field_len f ≤
        (copy_fields (pre ++ f :: (mid ++ g :: post)) s).context.field g) := by
  refine ⟨?_, ?_, ?_, fun fs => copy_fields_used fs s, ?_, ?_⟩
  · intro h
    refine ⟨?_, copy_len f f s, copy_used f s⟩
    unfold JF_SAX_CONTEXT_COPY
    rw [if_pos h]
    exact set_field_same _ _ _
  · intro h
    unfold JF_SAX_CONTEXT_COPY
    rw [if_neg (by omega)]
  · unfold JF_SAX_CONTEXT_COPY
    split
    · exact set_field_restore _ _ _
    · cases f <;> rfl
  · intro pre post hpost hlen
    exact ⟨copy_fields_position pre post f s hpost hlen, copy_fields_len _ _ _⟩
  · intro pre mid post g hmid hfg hpost hgpost hlf hlg
    have hf := copy_fields_position pre (mid ++ g :: post) f s
      (by simp [hmid, hpost, hfg]) hlf
    have hg := copy_fields_position (pre ++ f :: mid) post g s hgpost hlg
    rw [List.append_assoc, List.cons_append] at hg
    rw [hf, hg, copy_fields_len]
    simp only [List.map_append, List.map_cons, List.sum_append, List.sum_cons]
    omega

/-- Witness of C8: the name and the album of `sample_context` copied in a row, with the
empty artist between them. -/
theorem copy_repoints_and_advances_witness :
    (copy_fields [.name, .artist, .album]
        { mem := sample_memory, context := sample_context, used := 5 }).context.field .name +
      (copy_fields [.name, .artist, .album]
        { mem := sample_memory, context := sample_context, used := 5 }).context.field_len
          .name ≤
    (copy_fields [.name, .artist, .album]
        { mem := sample_memory, context := sample_context, used := 5 }).context.field .album ∧
    (copy_fields [.name, .artist, .album]
        { mem := sample_memory, context := sample_context, used := 5 }).context.field .name =
      1005 :=
  ⟨(copy_repoints_and_advances .name
      { mem := sample_memory, context := sample_context, used := 5 }).2.2.2.2.2
      [] [.artist] [] .album (by decide) (by decide) (by decide) (by decide) (by decide)
      (by decide),
    ((copy_repoints_and_advances .name
      { mem := sample_memory, context := sample_context, used := 5 }).2.2.2.2.1
      [] [.artist, .album] (by decide) (by decide)).1⟩

/-- C9: `JF_SAX_TRY_APPEND_NAME(prefix, field, suffix)` leaves the display-name buffer equal
to its old content followed by the prefix, the `field_len` bytes at `field` and the suffix
when `field_len > 0`, and leaves it as it was when `field_len = 0`. -/
theorem try_append_name_only_for_present_fields (pfx sfx : List Nat) (f : sax_field)
    (mem : memory) (context : jf_sax_context) (display_name : List Nat) :
    (0 < context.field_len f →
      JF_SAX_TRY_APPEND_NAME pfx f sfx mem context display_name =
        display_name ++ pfx ++ read mem (context.field f) (context.field_len f) ++ sfx) ∧
    (context.field_len f = 0 →
      JF_SAX_TRY_APPEND_NAME pfx f sfx mem context display_name = display_name) ∧
    (read mem (context.field f) (context.field_len f)).length = context.field_len f := by
  refine ⟨?_, ?_, by simp [read]⟩
  · intro h
    have hr : (read mem (context.field f) (context.field_len f)).length =
        context.field_len f := by simp [read]
    unfold JF_SAX_TRY_APPEND_NAME
    rw [if_pos h]
    simp only [jf_growing_buffer_append, JF_STATIC_STRLEN, Nat.add_sub_cancel]
    rw [List.take_left' rfl, List.take_left' rfl, List.take_of_length_le (le_of_eq hr)]
  · intro h
    unfold JF_SAX_TRY_APPEND_NAME
    rw [if_neg (by omega)]

/-- Witness of C9: the album `uv` of `sample_context` is appended between `" ["` and `"]"`, the
absent artist adds nothing. -/
theorem try_append_name_only_for_present_fields_witness :
    JF_SAX_TRY_APPEND_NAME (cstr " [") .album (cstr "]") sample_memory sample_context
        (cstr "abc") = cstr "abc [uv]" ∧
    JF_SAX_TRY_APPEND_NAME (cstr " - ") .artist (cstr "") sample_memory sample_context
        (cstr "abc") = cstr "abc" :=
  ⟨((try_append_name_only_for_present_fields (cstr " [") (cstr "]") .album sample_memory
      sample_context (cstr "abc")).1 (by decide)).trans (by decide),
   (try_append_name_only_for_present_fields (cstr " - ") (cstr "") .artist sample_memory
      sample_context (cstr "abc")).2.1 (by decide)⟩

end Json

namespace Network

/-! ## `network.c`: properties of the catalog records -/

theorem record_offset_next (L n : Nat) (hn : 1 ≤ n) :
    record_offset L n + (1 + L) = n * (1 + L) := by
  unfold record_offset
  obtain ⟨m, rfl⟩ : ∃ m, n = m + 1 := ⟨n - 1, by omega⟩
  rw [Nat.add_sub_cancel, Nat.succ_mul]

/-- C10 (amended): `jf_thread_buffer_get_parsed_item(n)` returns NULL exactly when `n = 0` or
`n > item_count`; for `1 <= n <= item_count` it returns an item whose type is the byte at
offset `(n-1)*(1+JF_ID_LENGTH)` of `parsed_ids` and whose id is the `JF_ID_LENGTH` bytes that
follow it cut at their first NUL, which is all of them when none is NUL; the records of
distinct valid `n` are disjoint and lie within the first `item_count*(1+JF_ID_LENGTH)`
bytes. -/
theorem parsed_item_by_index (JF_ID_LENGTH : Nat) (s_tb : jf_thread_buffer) (n : Nat) :
    (jf_thread_buffer_get_parsed_item JF_ID_LENGTH s_tb n = none ↔
      n = 0 ∨ n > s_tb.item_count) ∧
    (1 ≤ n → n ≤ s_tb.item_count →
      jf_thread_buffer_get_parsed_item JF_ID_LENGTH s_tb n =
        some { type := s_tb.parsed_ids.getD (record_offset JF_ID_LENGTH n) 0,
               id := (((s_tb.parsed_ids.drop (record_offset JF_ID_LENGTH n + 1)).take
                  JF_ID_LENGTH).takeWhile fun b => b != 0) } ∧
      ((∀ b ∈ (s_tb.parsed_ids.drop (record_offset JF_ID_LENGTH n + 1)).take JF_ID_LENGTH,
          b ≠ 0) →
        jf_thread_buffer_get_parsed_item JF_ID_LENGTH s_tb n =
          some { type := s_tb.parsed_ids.getD (record_offset JF_ID_LENGTH n) 0,
                 id := (s_tb.parsed_ids.drop (record_offset JF_ID_LENGTH n + 1)).take
                    JF_ID_LENGTH }) ∧
      record_offset JF_ID_LENGTH n + (1 + JF_ID_LENGTH) ≤
        s_tb.item_count * (1 + JF_ID_LENGTH)) ∧
    (∀ m, 1 ≤ n → n < m →
      record_offset JF_ID_LENGTH n + (1 + JF_ID_LENGTH) ≤ record_offset JF_ID_LENGTH m) := by
  refine ⟨?_, ?_, ?_⟩
  · unfold jf_thread_buffer_get_parsed_item jf_menu_item_new
    split
    · simp only [reduceCtorEq, false_iff]; omega
    · simp only [true_iff]; omega
  · intro h1 h2
    have hv : n > 0 ∧ n ≤ s_tb.item_count := ⟨h1, h2⟩
    refine ⟨?_, ?_, ?_⟩
    · simp [jf_thread_buffer_get_parsed_item, jf_menu_item_new, hv, strndup]
    · intro hnul
      have := Jftui.Net.strndup_of_no_nul _ _ hnul
      simp only [jf_thread_buffer_get_parsed_item, jf_menu_item_new, if_pos hv, this]
    · rw [record_offset_next _ _ h1]
      exact Nat.mul_le_mul_right _ h2
  · intro m h1 h2
    rw [record_offset_next _ _ h1]
    unfold record_offset
    exact Nat.mul_le_mul_right _ (by omega)

/-- Witness of C10 (amended): the first record of `sample_catalog`, whose identifier holds no
NUL. -/
theorem parsed_item_by_index_witness :
    jf_thread_buffer_get_parsed_item 3 sample_catalog 1 = some { type := 7, id := [97, 98, 99] } ∧
    record_offset 3 1 + (1 + 3) ≤ record_offset 3 2 :=
  ⟨(((parsed_item_by_index 3 sample_catalog 1).2.1 (by decide) (by decide)).2.1
      (by decide)).trans (by decide),
   (parsed_item_by_index 3 sample_catalog 1).2.2 2 (by decide) (by decide)⟩

/-- Counterexample to C10 as stated: the second record of `sample_catalog` is read with the
id `[100]`, not with the three bytes `[100, 0, 101]` that follow its type. -/
theorem parsed_item_by_index_counterexample :
    (1 ≤ 2 ∧ 2 ≤ sample_catalog.item_count) ∧
    jf_thread_buffer_get_parsed_item 3 sample_catalog 2 = some { type := 8, id := [100] } ∧
    (sample_catalog.parsed_ids.drop (record_offset 3 2 + 1)).take 3 = [100, 0, 101] ∧
    jf_thread_buffer_get_parsed_item 3 sample_catalog 2 ≠
      some { type := 8,
             id := (sample_catalog.parsed_ids.drop (record_offset 3 2 + 1)).take 3 } := by
  decide

/-- C11 (amended): every index `n` for which `jf_thread_buffer_get_parsed_item(n)` returns an
item satisfies `1 <= n <= item_count`, whatever the capacity of the catalog array; when the
counter `item_count` does not exceed the capacity `N` of an array of `N` records, the record
read lies inside the array. -/
theorem parsed_item_checks_counter_only (JF_ID_LENGTH : Nat) (s_tb : jf_thread_buffer)
    (n : Nat) (item : jf_menu_item)
    (h : jf_thread_buffer_get_parsed_item JF_ID_LENGTH s_tb n = some item) :
    1 ≤ n ∧ n ≤ s_tb.item_count ∧
    (∀ N, s_tb.item_count ≤ N → s_tb.parsed_ids.length = N * (1 + JF_ID_LENGTH) →
      n ≤ N ∧ record_offset JF_ID_LENGTH n + (1 + JF_ID_LENGTH) ≤ s_tb.parsed_ids.length) := by
  have hv : n > 0 ∧ n ≤ s_tb.item_count := by
    by_contra hv
    simp [jf_thread_buffer_get_parsed_item, hv] at h
  refine ⟨hv.1, hv.2, ?_⟩
  intro N hN hcap
  refine ⟨le_trans hv.2 hN, ?_⟩
  rw [record_offset_next _ _ hv.1, hcap]
  exact Nat.mul_le_mul_right _ (le_trans hv.2 hN)

/-- Witness of C11 (amended): the second record of `sample_catalog`, an array of two records
with two items counted. -/
theorem parsed_item_checks_counter_only_witness :
    jf_thread_buffer_get_parsed_item 3 sample_catalog 2 = some { type := 8, id := [100] } ∧
    2 ≤ 2 ∧ record_offset 3 2 + (1 + 3) ≤ sample_catalog.parsed_ids.length :=
  ⟨by decide,
    (parsed_item_checks_counter_only 3 sample_catalog 2 { type := 8, id := [100] }
      (by decide)).2.2 2 (by decide) (by decide)⟩

/-- Counterexample to C11 as stated: with an array of `N = 1` record and `M = 2` items
counted, index 2 yields an item although `2 > N`, read past the stored record. -/
theorem parsed_item_checks_counter_only_counterexample :
    sample_overfull_catalog.parsed_ids.length = 1 * (1 + 3) ∧
    sample_overfull_catalog.item_count = 2 ∧
    (jf_thread_buffer_get_parsed_item 3 sample_overfull_catalog 2).isSome = true ∧
    ¬ (2 ≤ 1) ∧
    sample_overfull_catalog.parsed_ids.length < record_offset 3 2 + (1 + 3) := by
  decide

end Network

namespace Json

/-! ## `json.h`: capacity and content of the copy buffer, bad states -/

theorem read_length (mem : memory) (p n : Nat) : (read mem p n).length = n := by
  simp [read]

theorem read_getElem (mem : memory) (p n i : Nat) (h : i < (read mem p n).length) :
    (read mem p n)[i] = mem (p + i) := by
  simp [read]

theorem write_outside (mem : memory) (p : Nat) (bytes : List Nat) (a : Nat)
    (h : ¬ (p ≤ a ∧ a < p + bytes.length)) : write mem p bytes a = mem a := by
  simp only [write, if_neg h]

theorem read_write_same (mem : memory) (p : Nat) (bytes : List Nat) :
    read (write mem p bytes) p bytes.length = bytes := by
  apply List.ext_getElem
  · exact read_length _ _ _
  · intro i h1 h2
    rw [read_getElem]
    have hin : p ≤ p + i ∧ p + i < p + bytes.length := ⟨by omega, by omega⟩
    simp only [write, if_pos hin, Nat.add_sub_cancel_left]
    simp [List.getD, h2]

theorem read_write_disjoint (mem : memory) (p : Nat) (bytes : List Nat) (q n : Nat)
    (h : q + n ≤ p ∨ p + bytes.length ≤ q) :
    read (write mem p bytes) q n = read mem q n := by
  unfold read
  apply List.map_congr_left
  intro i hi
  have hi' : i < n := List.mem_range.mp hi
  exact write_outside _ _ _ _ (by omega)

/-- The bytes that `strncpy` stores for a source slice: the slice up to its first NUL, then
NULs. -/
theorem strncpy_bytes_length (slice : List Nat) :
    ((slice.takeWhile fun b => b != 0) ++
      List.replicate (slice.length - (slice.takeWhile fun b => b != 0).length) 0).length =
      slice.length := by
  have := (List.takeWhile_sublist (l := slice) fun b => b != 0).length_le
  simp only [List.length_append, List.length_replicate]
  omega

theorem copy_frame (f : sax_field) (s : copy_state) (a : Nat)
    (h : ¬ (s.context.copy_buffer + s.used ≤ a ∧
      a < s.context.copy_buffer + s.used + s.context.field_len f)) :
    (JF_SAX_CONTEXT_COPY f s).mem a = s.mem a := by
  unfold JF_SAX_CONTEXT_COPY
  split
  · simp only [strncpy]
    apply write_outside
    have hl := strncpy_bytes_length (read s.mem (s.context.field f) (s.context.field_len f))
    rw [read_length] at hl
    rw [hl]
    exact h
  · rfl

theorem copy_fields_frame (fs : List sax_field) :
    ∀ (s : copy_state) (a : Nat),
      ¬ (s.context.copy_buffer + s.used ≤ a ∧
        a < s.context.copy_buffer + s.used + (fs.map s.context.field_len).sum) →
      (copy_fields fs s).mem a = s.mem a := by
  induction fs with
  | nil => intro s a _; rfl
  | cons f fs ih =>
    intro s a h
    rw [copy_fields_cons, ih, copy_frame]
    · intro hc
      apply h
      simp only [List.map_cons, List.sum_cons]
      omega
    · rw [copy_copy_buffer, copy_used]
      have hm : (fs.map (JF_SAX_CONTEXT_COPY f s).context.field_len) =
          fs.map s.context.field_len := by
        apply List.map_congr_left
        intro g _
        exact copy_len f g s
      rw [hm]
      intro hc
      apply h
      simp only [List.map_cons, List.sum_cons]
      omega

/-- C12 (amended): `JF_SAX_CONTEXT_COPY` has no capacity check: it writes the `field_len`
bytes at the offsets `used .. used + field_len - 1` of the copy buffer and nowhere else, and
leaves `used` at `used + field_len`, untruncated; the writes stay below a capacity `cap` and
`used <= cap` holds afterwards whenever the field fits, `used + field_len <= cap`, and the same
holds for a sequence of fields whose lengths add up to at most the remaining space. -/
theorem copy_has_no_capacity_check (f : sax_field) (s : copy_state) (cap : Nat) :
    (JF_SAX_CONTEXT_COPY f s).used = s.used + s.context.field_len f ∧
    (JF_SAX_CONTEXT_COPY f s).context.field_len f = s.context.field_len f ∧
    (∀ a, ¬ (s.context.copy_buffer + s.used ≤ a ∧
        a < s.context.copy_buffer + s.used + s.context.field_len f) →
      (JF_SAX_CONTEXT_COPY f s).mem a = s.mem a) ∧
    (s.used + s.context.field_len f ≤ cap →
      (JF_SAX_CONTEXT_COPY f s).used ≤ cap ∧
      ∀ a, s.context.copy_buffer + cap ≤ a → (JF_SAX_CONTEXT_COPY f s).mem a = s.mem a) ∧
    (∀ fs, s.used + (fs.map s.context.field_len).sum ≤ cap →
      (copy_fields fs s).used ≤ cap ∧
      ∀ a, s.context.copy_buffer + cap ≤ a → (copy_fields fs s).mem a = s.mem a) := by
  refine ⟨copy_used f s, copy_len f f s, copy_frame f s, ?_, ?_⟩
  · intro h
    refine ⟨by rw [copy_used]; exact h, ?_⟩
    intro a ha
    exact copy_frame f s a (by omega)
  · intro fs h
    refine ⟨by rw [copy_fields_used]; exact h, ?_⟩
    intro a ha
    exact copy_fields_frame fs s a (by omega)

/-- Witness of C12 (amended): the name of `sample_context`, three bytes, copied at offset 1
of a copy buffer of capacity 4. -/
theorem copy_has_no_capacity_check_witness :
    (JF_SAX_CONTEXT_COPY .name
      { mem := sample_memory, context := sample_context, used := 1 }).used ≤ 4 ∧
    (JF_SAX_CONTEXT_COPY .name
      { mem := sample_memory, context := sample_context, used := 1 }).mem (1000 + 4) =
      sample_memory (1000 + 4) :=
  ⟨((copy_has_no_capacity_check .name
      { mem := sample_memory, context := sample_context, used := 1 } 4).2.2.2.1
      (by decide)).1,
   ((copy_has_no_capacity_check .name
      { mem := sample_memory, context := sample_context, used := 1 } 4).2.2.2.1
      (by decide)).2 (1000 + 4) (by decide)⟩

/-- Counterexample to C12 as stated: with capacity 4 and `used = 3 <= 4`, the copy of a name
of three bytes writes the offset 5 of the copy buffer and leaves `used = 6`, the field still
three bytes long. -/
theorem copy_has_no_capacity_check_counterexample :
    (3 : Nat) ≤ 4 ∧
    (JF_SAX_CONTEXT_COPY .name
      { mem := sample_memory, context := sample_context, used := 3 }).used = 6 ∧
    ¬ (6 ≤ 4) ∧
    (JF_SAX_CONTEXT_COPY .name
      { mem := sample_memory, context := sample_context, used := 3 }).mem (1000 + 5) = 99 ∧
    sample_memory (1000 + 5) = 0 ∧
    (JF_SAX_CONTEXT_COPY .name
      { mem := sample_memory, context := sample_context, used := 3 }).context.field_len
        .name = 3 := by
  decide

/-- C14 (amended): after `JF_SAX_CONTEXT_COPY(field)` with `field_len > 0` the `field_len`
bytes at the field's new location are the bytes of the original slice up to its first NUL,
followed by NULs (`strncpy`); they equal the original slice byte for byte when the slice holds
no NUL. The bytes below the old write offset, where the fields copied earlier lie, are
unchanged. -/
theorem copy_keeps_content_up_to_nul (f : sax_field) (s : copy_state)
    (hlen : 0 < s.context.field_len f) :
    read (JF_SAX_CONTEXT_COPY f s).mem ((JF_SAX_CONTEXT_COPY f s).context.field f)
        (s.context.field_len f) =
      ((read s.mem (s.context.field f) (s.context.field_len f)).takeWhile fun b => b != 0) ++
        List.replicate (s.context.field_len f -
          ((read s.mem (s.context.field f) (s.context.field_len f)).takeWhile
            fun b => b != 0).length) 0 ∧
    ((∀ b ∈ read s.mem (s.context.field f) (s.context.field_len f), b ≠ 0) →
      read (JF_SAX_CONTEXT_COPY f s).mem ((JF_SAX_CONTEXT_COPY f s).context.field f)
          (s.context.field_len f) =
        read s.mem (s.context.field f) (s.context.field_len f)) ∧
    (∀ q n, q + n ≤ s.context.copy_buffer + s.used →
      read (JF_SAX_CONTEXT_COPY f s).mem q n = read s.mem q n) := by
  have hl := strncpy_bytes_length (read s.mem (s.context.field f) (s.context.field_len f))
  rw [read_length] at hl
  have h1 : read (JF_SAX_CONTEXT_COPY f s).mem ((JF_SAX_CONTEXT_COPY f s).context.field f)
        (s.context.field_len f) =
      ((read s.mem (s.context.field f) (s.context.field_len f)).takeWhile fun b => b != 0) ++
        List.replicate (s.context.field_len f -
          ((read s.mem (s.context.field f) (s.context.field_len f)).takeWhile
            fun b => b != 0).length) 0 := by
    unfold JF_SAX_CONTEXT_COPY
    rw [if_pos hlen]
    simp only [set_field_same, strncpy]
    have key := read_write_same s.mem (s.context.copy_buffer + s.used)
      (((read s.mem (s.context.field f) (s.context.field_len f)).takeWhile
          fun b => b != 0) ++
        List.replicate (s.context.field_len f -
          ((read s.mem (s.context.field f) (s.context.field_len f)).takeWhile
            fun b => b != 0).length) 0)
    rw [hl] at key
    exact key
  refine ⟨h1, ?_, ?_⟩
  · intro hnul
    rw [h1]
    have : ((read s.mem (s.context.field f) (s.context.field_len f)).takeWhile
        fun b => b != 0) = read s.mem (s.context.field f) (s.context.field_len f) := by
      rw [List.takeWhile_eq_self_iff]
      intro b hb
      simpa using hnul b hb
    rw [this, read_length]
    simp
  · intro q n hq
    unfold JF_SAX_CONTEXT_COPY
    rw [if_pos hlen]
    simp only [strncpy]
    exact read_write_disjoint _ _ _ _ _ (Or.inl hq)

/-- Witness of C14 (amended): the name `abc` of `sample_context` copied at offset 5. -/
theorem copy_keeps_content_up_to_nul_witness :
    read (JF_SAX_CONTEXT_COPY .name
        { mem := sample_memory, context := sample_context, used := 5 }).mem
      ((JF_SAX_CONTEXT_COPY .name
        { mem := sample_memory, context := sample_context, used := 5 }).context.field .name)
      3 = [97, 98, 99] :=
  ((copy_keeps_content_up_to_nul .name
      { mem := sample_memory, context := sample_context, used := 5 } (by decide)).2.1
    (by decide)).trans (by decide)

/-- Counterexample to C14 as stated: a name slice `a`, NUL, `c` of length 3 is copied as
`a`, NUL, NUL. -/
theorem copy_keeps_content_up_to_nul_counterexample :
    sample_context.field_len .name = 3 ∧
    read sample_memory_nul (sample_context.field .name) 3 = [97, 0, 99] ∧
    read (JF_SAX_CONTEXT_COPY .name
        { mem := sample_memory_nul, context := sample_context, used := 5 }).mem
      ((JF_SAX_CONTEXT_COPY .name
        { mem := sample_memory_nul, context := sample_context, used := 5 }).context.field
          .name) 3 = [97, 0, 0] := by
  decide

/-- C17 (amended): `JF_SAX_BAD_STATE` makes the lexer callback return 0 at once and leaves
the parser context, the result sink and the relay channel as they are: it writes two lines to
`stderr` and nothing else, so the channel is in the PARSER_ERROR state after it only if it
already was. -/
theorem bad_state_returns_zero (file : String) (line : Nat) (w : sax_world) :
    (JF_SAX_BAD_STATE file line w).1 = 0 ∧
    (JF_SAX_BAD_STATE file line w).2.context = w.context ∧
    (JF_SAX_BAD_STATE file line w).2.tb = w.tb ∧
    (JF_SAX_BAD_STATE file line w).2.display_name = w.display_name ∧
    (JF_SAX_BAD_STATE file line w).2.stderr = w.stderr ++
      [cstr (file ++ ":" ++ toString line ++ ": JF_SAX_BAD_STATE.\n"),
       cstr "This is a bug.\n"] ∧
    ((JF_SAX_BAD_STATE file line w).2.tb.state = .PARSER_ERROR ↔
      w.tb.state = .PARSER_ERROR) :=
  ⟨rfl, rfl, rfl, rfl, rfl, Iff.rfl⟩

/-- Counterexample to C17 as stated: in `sample_world`, a chunk pending, the callback that
reaches `JF_SAX_BAD_STATE` returns 0 with the channel still in the PENDING_DATA state, not in
PARSER_ERROR. -/
theorem bad_state_returns_zero_counterexample :
    (JF_SAX_BAD_STATE "json.c" 100 sample_world).1 = 0 ∧
    (JF_SAX_BAD_STATE "json.c" 100 sample_world).2.tb.state = .PENDING_DATA ∧
    (JF_SAX_BAD_STATE "json.c" 100 sample_world).2.tb.state ≠ .PARSER_ERROR := by
  decide

end Json

namespace Net

/-! ## `net.c`: bounds of a deposit -/

/-- C16: with `D >= 3`, a chunk written by `jf_thread_buffer_callback` (so with
`written_data < real_size`) has between 1 and `D - 2` bytes, and every index the deposit
writes in `s_tb.data`, the chunk bytes `0 .. chunk_size - 1` and the NUL at `chunk_size + 1`,
is at most `D - 1`; on a slot of `D` bytes the deposit changes no other index and keeps the
length. -/
theorem deposit_stays_inside_slot (D : Nat) (payload : List Nat) (real_size written_data : Nat)
    (tb : jf_thread_buffer) (hD : 3 ≤ D) (hw : written_data < real_size)
    (hlen : real_size ≤ payload.length) :
    1 ≤ chunk_size D real_size written_data ∧ chunk_size D real_size written_data ≤ D - 2 ∧
    (∀ i ∈ send_data_indices D real_size written_data, i ≤ D - 1) ∧
    (tb.data.length = D →
      (send_data D payload real_size written_data tb).data.length = D ∧
      ∀ i, i ∉ send_data_indices D real_size written_data →
        (send_data D payload real_size written_data tb).data[i]? = tb.data[i]?) := by
  have hpos := chunk_size_pos D real_size written_data hD hw
  have hle := chunk_size_le D real_size written_data
  have hmax : chunk_size D real_size written_data ≤ D - 2 := by
    unfold chunk_size
    split <;> omega
  have htake : ((payload.drop written_data).take
      (chunk_size D real_size written_data)).length = chunk_size D real_size written_data := by
    rw [List.length_take, List.length_drop]; omega
  refine ⟨hpos, hmax, ?_, ?_⟩
  · intro i hi
    simp only [send_data_indices, List.mem_append, List.mem_range, List.mem_singleton] at hi
    omega
  · intro hdata
    refine ⟨?_, ?_⟩
    · simp only [send_data, memcpy, List.length_set, List.length_append, htake,
        List.length_drop]
      omega
    · intro i hi
      simp only [send_data_indices, List.mem_append, List.mem_range, List.mem_singleton,
        not_or, not_lt] at hi
      simp only [send_data, memcpy]
      rw [List.getElem?_set_ne (by omega), List.getElem?_append_right (by omega), htake,
        List.getElem?_drop]
      congr 1
      omega

/-- Witness of C16: the first chunk of five bytes sent through `sample_tb`, a slot of eight. -/
theorem deposit_stays_inside_slot_witness :
    1 ≤ chunk_size 8 5 0 ∧ chunk_size 8 5 0 ≤ 8 - 2 ∧
    (∀ i ∈ send_data_indices 8 5 0, i ≤ 8 - 1) ∧
    (sample_tb.data.length = 8 →
      (send_data 8 [1, 2, 3, 4, 5] 5 0 sample_tb).data.length = 8 ∧
      ∀ i, i ∉ send_data_indices 8 5 0 →
        (send_data 8 [1, 2, 3, 4, 5] 5 0 sample_tb).data[i]? = sample_tb.data[i]?) :=
  deposit_stays_inside_slot 8 [1, 2, 3, 4, 5] 5 0 sample_tb (by decide) (by decide)
    (by decide)

end Net

namespace Json

/-! ## `json.h`: key recognition and the ignore counters -/

/-- C15 on the code: `JF_SAX_KEY_IS("Name")` and `JF_SAX_STRING_IS("Name")` compare only
`min(key_len, sizeof(name))` bytes, so the empty key and the proper prefix `Na` of `Name` are
recognized as `Name` (and the key `Album` as `AlbumArtist`); the key `Name` itself is
recognized and the longer key `Names` is not. The keys are followed in memory by the rest of
the JSON text. -/
theorem key_recognition_accepts_prefixes :
    JF_SAX_KEY_IS (cstr "Name") (cstr "" ++ json_rest) 0 = true ∧
    JF_SAX_KEY_IS (cstr "Name") (cstr "Na" ++ json_rest) 2 = true ∧
    JF_SAX_KEY_IS (cstr "AlbumArtist") (cstr "Album" ++ json_rest) 5 = true ∧
    JF_SAX_KEY_IS (cstr "Name") (cstr "Name" ++ json_rest) 4 = true ∧
    JF_SAX_KEY_IS (cstr "Name") (cstr "Names" ++ json_rest) 5 = false ∧
    JF_SAX_STRING_IS (cstr "Name") (cstr "" ++ json_rest) 0 = true ∧
    JF_SAX_STRING_IS (cstr "Name") (cstr "Na" ++ json_rest) 2 = true ∧
    (cstr "Na").length ≠ (cstr "Name").length := by
  decide

theorem ignore_run_cons (c : jf_sax_context) (e : lexer_event) (es : List lexer_event) :
    ignore_run c (e :: es) = ignore_run (ignore_step c e) es := rfl

/-- While the events stay inside the structures that are open, the parser keeps ignoring:
with `m0 + a0 > 0` structures open below `stack`, every prefix of a sequence that closes
exactly `stack` leaves the state JF_SAX_IGNORE and the counters at least `(m0, a0)`, and the
whole sequence leaves them at `(m0, a0)`. -/
theorem ignore_run_inside (m0 a0 : Nat) (h0 : 0 < m0 + a0) :
    ∀ (es : List lexer_event) (stack : List bracket) (c : jf_sax_context),
      balanced_from stack es = true → c.parser_state = .JF_SAX_IGNORE →
      c.maps_ignoring = m0 + stack.count .map → c.arrays_ignoring = a0 + stack.count .array →
      (∀ n, (ignore_run c (es.take n)).parser_state = .JF_SAX_IGNORE ∧
        m0 ≤ (ignore_run c (es.take n)).maps_ignoring ∧
        a0 ≤ (ignore_run c (es.take n)).arrays_ignoring ∧
        (ignore_run c (es.take n)).state_to_resume = c.state_to_resume) ∧
      (ignore_run c es).maps_ignoring = m0 ∧ (ignore_run c es).arrays_ignoring = a0 := by
  intro es
  induction es with
  | nil =>
    intro stack c hb hs hm ha
    have hst : stack = [] := by
      cases stack with
      | nil => rfl
      | cons b st => simp [balanced_from] at hb
    subst hst
    simp only [List.count_nil, Nat.add_zero] at hm ha
    refine ⟨fun n => ?_, hm, ha⟩
    simp only [List.take_nil]
    exact ⟨hs, by rw [← hm]; exact le_refl _, by rw [← ha]; exact le_refl _, rfl⟩
  | cons e es ih =>
    intro stack c hb hs hm ha
    -- the step on `e` keeps the invariant for some stack `stack'`
    have hstep : ∃ stack', balanced_from stack' es = true ∧
        (ignore_step c e).parser_state = .JF_SAX_IGNORE ∧
        (ignore_step c e).maps_ignoring = m0 + stack'.count .map ∧
        (ignore_step c e).arrays_ignoring = a0 + stack'.count .array ∧
        (ignore_step c e).state_to_resume = c.state_to_resume := by
      cases e with
      | map_open =>
        refine ⟨.map :: stack, by simpa [balanced_from] using hb, ?_, ?_, ?_, ?_⟩
        · simp [ignore_step, hs]
        · simp [ignore_step, hs, hm]; try omega
        · simp [ignore_step, hs, ha]; try omega
        · simp [ignore_step, hs]
      | array_open =>
        refine ⟨.array :: stack, by simpa [balanced_from] using hb, ?_, ?_, ?_, ?_⟩
        · simp [ignore_step, hs]
        · simp [ignore_step, hs, hm]; try omega
        · simp [ignore_step, hs, ha]; try omega
        · simp [ignore_step, hs]
      | map_close =>
        cases stack with
        | nil => simp [balanced_from] at hb
        | cons b st =>
          cases b with
          | array => simp [balanced_from] at hb
          | map =>
            simp only [List.count_cons_self, List.count_cons_of_ne (by decide : bracket.array ≠ bracket.map)] at hm ha
            have hne : ¬ (c.maps_ignoring - 1 = 0 ∧ c.arrays_ignoring = 0) := by omega
            refine ⟨st, by simpa [balanced_from] using hb, ?_, ?_, ?_, ?_⟩ <;>
              simp [ignore_step, hs, hne] <;> omega
      | array_close =>
        cases stack with
        | nil => simp [balanced_from] at hb
        | cons b st =>
          cases b with
          | map => simp [balanced_from] at hb
          | array =>
            simp only [List.count_cons_self, List.count_cons_of_ne (by decide : bracket.map ≠ bracket.array)] at hm ha
            have hne : ¬ (c.maps_ignoring = 0 ∧ c.arrays_ignoring - 1 = 0) := by omega
            refine ⟨st, by simpa [balanced_from] using hb, ?_, ?_, ?_, ?_⟩ <;>
              simp [ignore_step, hs, hne] <;> omega
      | key =>
        exact ⟨stack, by simpa [balanced_from] using hb, by simp [ignore_step, hs],
          by simp [ignore_step, hs, hm], by simp [ignore_step, hs, ha],
          by simp [ignore_step, hs]⟩
      | string_value =>
        exact ⟨stack, by simpa [balanced_from] using hb, by simp [ignore_step, hs],
          by simp [ignore_step, hs, hm], by simp [ignore_step, hs, ha],
          by simp [ignore_step, hs]⟩
      | number_value =>
        exact ⟨stack, by simpa [balanced_from] using hb, by simp [ignore_step, hs],
          by simp [ignore_step, hs, hm], by simp [ignore_step, hs, ha],
          by simp [ignore_step, hs]⟩
    obtain ⟨stack', hb', hs', hm', ha', hr'⟩ := hstep
    have hrec := ih stack' (ignore_step c e) hb' hs' hm' ha'
    refine ⟨fun n => ?_, ?_, ?_⟩
    · cases n with
      | zero =>
        simp only [List.take_zero]
        refine ⟨hs, ?_, ?_, rfl⟩
        · show m0 ≤ c.maps_ignoring
          omega
        · show a0 ≤ c.arrays_ignoring
          omega
      | succ n =>
        rw [List.take_succ_cons, ignore_run_cons]
        have := hrec.1 n
        rw [hr'] at this
        exact this
    · rw [ignore_run_cons]; exact hrec.2.1
    · rw [ignore_run_cons]; exact hrec.2.2

theorem ignore_run_single (c : jf_sax_context) (e : lexer_event) :
    ignore_run c [e] = ignore_step c e := rfl

theorem ignore_run_append (c : jf_sax_context) (es fs : List lexer_event) :
    ignore_run c (es ++ fs) = ignore_run (ignore_run c es) fs := by
  simp [ignore_run, List.foldl_append]

/-- C13: starting in JF_SAX_IGNORE with the counters `(1, 0)` (a map started the ignoring) or
`(0, 1)` (an array did), for every well-nested sequence of events `es`, the content of that
structure: an open adds one to its counter and a close takes one from it; after every prefix
of `es` the state is still JF_SAX_IGNORE and the counters are not both zero; and the close of
the structure that started the ignoring, the first event after which both counters are zero,
makes the state `state_to_resume`. -/
theorem ignore_returns_when_subtree_closes (c : jf_sax_context) (b : bracket)
    (es : List lexer_event) (hstate : c.parser_state = .JF_SAX_IGNORE)
    (hcount : (c.maps_ignoring, c.arrays_ignoring) = b.counters)
    (hnest : well_nested es = true) :
    (∀ n, (ignore_run c (es.take n)).parser_state = .JF_SAX_IGNORE ∧
      ¬ ((ignore_run c (es.take n)).maps_ignoring = 0 ∧
        (ignore_run c (es.take n)).arrays_ignoring = 0)) ∧
    (ignore_run c (es ++ [b.close])).parser_state = c.state_to_resume ∧
    (ignore_run c (es ++ [b.close])).maps_ignoring = 0 ∧
    (ignore_run c (es ++ [b.close])).arrays_ignoring = 0 ∧
    (∀ d : jf_sax_context, d.parser_state = .JF_SAX_IGNORE →
      (ignore_step d .map_open).maps_ignoring = d.maps_ignoring + 1 ∧
      (ignore_step d .map_open).arrays_ignoring = d.arrays_ignoring ∧
      (ignore_step d .array_open).arrays_ignoring = d.arrays_ignoring + 1 ∧
      (ignore_step d .array_open).maps_ignoring = d.maps_ignoring ∧
      (ignore_step d .map_close).maps_ignoring = d.maps_ignoring - 1 ∧
      (ignore_step d .map_close).arrays_ignoring = d.arrays_ignoring ∧
      (ignore_step d .array_close).arrays_ignoring = d.arrays_ignoring - 1 ∧
      (ignore_step d .array_close).maps_ignoring = d.maps_ignoring) := by
  have hsteps : ∀ d : jf_sax_context, d.parser_state = .JF_SAX_IGNORE →
      (ignore_step d .map_open).maps_ignoring = d.maps_ignoring + 1 ∧
      (ignore_step d .map_open).arrays_ignoring = d.arrays_ignoring ∧
      (ignore_step d .array_open).arrays_ignoring = d.arrays_ignoring + 1 ∧
      (ignore_step d .array_open).maps_ignoring = d.maps_ignoring ∧
      (ignore_step d .map_close).maps_ignoring = d.maps_ignoring - 1 ∧
      (ignore_step d .map_close).arrays_ignoring = d.arrays_ignoring ∧
      (ignore_step d .array_close).arrays_ignoring = d.arrays_ignoring - 1 ∧
      (ignore_step d .array_close).maps_ignoring = d.maps_ignoring := by
    intro d hd
    refine ⟨by simp [ignore_step, hd], by simp [ignore_step, hd], by simp [ignore_step, hd],
      by simp [ignore_step, hd], ?_, ?_, ?_, ?_⟩ <;>
    · simp only [ignore_step, hd, if_true]
      split <;> rfl
  cases b with
  | map =>
    simp only [bracket.counters, Prod.mk.injEq] at hcount
    obtain ⟨hin, hm, ha⟩ := ignore_run_inside 1 0 (by decide) es [] c hnest hstate
      (by simp [hcount.1]) (by simp [hcount.2])
    have hend := hin es.length
    rw [List.take_length] at hend
    refine ⟨fun n => ⟨(hin n).1, fun h => ?_⟩, ?_, ?_, ?_, hsteps⟩
    · have := (hin n).2.1
      omega
    all_goals
      rw [ignore_run_append, ignore_run_single]
      simp [bracket.close, ignore_step, hend.1, hm, ha, hend.2.2.2]
  | array =>
    simp only [bracket.counters, Prod.mk.injEq] at hcount
    obtain ⟨hin, hm, ha⟩ := ignore_run_inside 0 1 (by decide) es [] c hnest hstate
      (by simp [hcount.1]) (by simp [hcount.2])
    have hend := hin es.length
    rw [List.take_length] at hend
    refine ⟨fun n => ⟨(hin n).1, fun h => ?_⟩, ?_, ?_, ?_, hsteps⟩
    · have := (hin n).2.2.1
      omega
    all_goals
      rw [ignore_run_append, ignore_run_single]
      simp [bracket.close, ignore_step, hend.1, hm, ha, hend.2.2.2]

/-- Witness of C13: an ignored map whose content is a key, an array holding a map, and a
number; the parser resumes JF_SAX_IN_ITEM_MAP at the closing event of the ignored map. -/
theorem ignore_returns_when_subtree_closes_witness :
    (ignore_run
      { sample_context with parser_state := .JF_SAX_IGNORE, maps_ignoring := 1,
                            state_to_resume := .JF_SAX_IN_ITEM_MAP }
      ([.key, .array_open, .map_open, .key, .string_value, .map_close, .array_close, .key,
        .number_value] ++ [bracket.map.close])).parser_state = .JF_SAX_IN_ITEM_MAP ∧
    (ignore_run
      { sample_context with parser_state := .JF_SAX_IGNORE, maps_ignoring := 1,
                            state_to_resume := .JF_SAX_IN_ITEM_MAP }
      (([.key, .array_open, .map_open, .key, .string_value, .map_close, .array_close, .key,
        .number_value] : List lexer_event).take 7)).parser_state = .JF_SAX_IGNORE :=
  ⟨(ignore_returns_when_subtree_closes
      { sample_context with parser_state := .JF_SAX_IGNORE, maps_ignoring := 1,
                            state_to_resume := .JF_SAX_IN_ITEM_MAP }
      .map
      [.key, .array_open, .map_open, .key, .string_value, .map_close, .array_close, .key,
        .number_value] (by decide) (by decide) (by decide)).2.1,
   ((ignore_returns_when_subtree_closes
      { sample_context with parser_state := .JF_SAX_IGNORE, maps_ignoring := 1,
                            state_to_resume := .JF_SAX_IN_ITEM_MAP }
      .map
      [.key, .array_open, .map_open, .key, .string_value, .map_close, .array_close, .key,
        .number_value] (by decide) (by decide) (by decide)).1 7).1⟩

end Json

namespace Network

/-! ## `network.c`: the consumption mode in `jf_request` -/

/-- C20 on the code: the dispatch of `jf_request` leaves `promiscuous_context` as it is for
JF_REQUEST_SAX, so a JF_REQUEST_SAX request that follows a JF_REQUEST_SAX_PROMISCUOUS request
on the same channel still has `promiscuous_context` set after the dispatch and at the return
of `jf_request`: it is parsed in promiscuous mode. -/
theorem sax_request_keeps_promiscuous_mode :
    (request_dispatch .JF_REQUEST_SAX
      { Net.sample_tb with promiscuous_context := true }).2.promiscuous_context = true ∧
    (∃ reply tb,
      jf_request sample_codes (-9) sample_request_env .JF_REQUEST_SAX_PROMISCUOUS
        Net.sample_tb = some (reply, tb) ∧
      tb.promiscuous_context = true ∧
      ∃ reply' tb',
        jf_request sample_codes (-9) sample_request_env .JF_REQUEST_SAX tb =
          some (reply', tb') ∧
        (request_dispatch .JF_REQUEST_SAX tb).2.promiscuous_context = true ∧
        tb'.promiscuous_context = true) ∧
    (Net.request_dispatch .JF_REQUEST_SAX
      { Net.sample_tb with promiscuous_context := true }).2.promiscuous_context = false := by
  refine ⟨by decide, ⟨_, _, rfl, by decide, _, _, rfl, by decide, by decide⟩, by decide⟩

end Network

namespace Main

/-! ## `main.c`: properties of the progress update -/

theorem wrap64_of_range (x : Int) (h1 : -9223372036854775808 ≤ x)
    (h2 : x < 9223372036854775808) : wrap64 x = x := by
  unfold wrap64
  omega

theorem two_pow_63 : (2 : Int) ^ 63 = 9223372036854775808 := by norm_num

theorem sum_nonneg_of_nonneg (rs : List Int) (h : ∀ r ∈ rs, 0 ≤ r) : 0 ≤ rs.sum := by
  induction rs with
  | nil => simp
  | cons r rs ih =>
    rw [List.sum_cons]
    have h1 := h r (List.mem_cons_self _ _)
    have h2 := ih (fun x hx => h x (List.mem_cons_of_mem _ hx))
    omega

theorem part_loop_append (p stored : Int) (xs ys : List Int) :
    ∀ (i : Nat) (s : part_loop_state),
      part_loop p stored (xs ++ ys) i s =
        part_loop p stored ys (i + xs.length) (part_loop p stored xs i s) := by
  induction xs with
  | nil => intro i s; rfl
  | cons x xs ih =>
    intro i s
    show part_loop p stored (xs ++ ys) (i + 1) (part_loop_body p stored i x s) =
      part_loop p stored ys (i + (xs.length + 1))
        (part_loop p stored xs (i + 1) (part_loop_body p stored i x s))
    rw [ih, show i + 1 + xs.length = i + (xs.length + 1) by omega]

/-- While no sum overflows, the body of the first loop computes the exact sums. -/
theorem part_loop_body_exact (p stored : Int) (i : Nat) (r : Int) (s : part_loop_state)
    (rs : List Int) (hr : 0 ≤ r) (hrs : 0 ≤ rs.sum) (h : no_overflow s (r :: rs)) :
    part_loop_body p stored i r s =
      { accounted_ticks := s.accounted_ticks + r,
        current_tick_offset :=
          if s.accounted_ticks ≤ p ∧ ¬ p < s.accounted_ticks + r then
            s.current_tick_offset + r
          else s.current_tick_offset,
        current_part :=
          if s.accounted_ticks ≤ p ∧ p < s.accounted_ticks + r then some i
          else s.current_part,
        last_part :=
          if s.accounted_ticks ≤ stored ∧ stored < s.accounted_ticks + r then some i
          else s.last_part } ∧
    no_overflow (part_loop_body p stored i r s) rs := by
  obtain ⟨h1, h2, h3, h4⟩ := h
  rw [List.sum_cons] at h2
  have w1 : wrap64 (s.accounted_ticks + r) = s.accounted_ticks + r :=
    wrap64_of_range _ (by omega) (by omega)
  have w2 : wrap64 (s.current_tick_offset + r) = s.current_tick_offset + r :=
    wrap64_of_range _ (by omega) (by omega)
  have heq : part_loop_body p stored i r s =
      { accounted_ticks := s.accounted_ticks + r,
        current_tick_offset :=
          if s.accounted_ticks ≤ p ∧ ¬ p < s.accounted_ticks + r then
            s.current_tick_offset + r
          else s.current_tick_offset,
        current_part :=
          if s.accounted_ticks ≤ p ∧ p < s.accounted_ticks + r then some i
          else s.current_part,
        last_part :=
          if s.accounted_ticks ≤ stored ∧ stored < s.accounted_ticks + r then some i
          else s.last_part } := by
    simp only [part_loop_body, w1, w2]
    by_cases c1 : s.accounted_ticks ≤ p <;> by_cases c2 : p < s.accounted_ticks + r <;>
      by_cases c3 : s.accounted_ticks ≤ stored ∧ stored < s.accounted_ticks + r <;>
      simp [c1, c2, c3]
  refine ⟨heq, ?_⟩
  rw [heq]
  refine ⟨by simp only; omega, by simp only; omega, ?_, ?_⟩
  · simp only
    split <;> omega
  · simp only
    split <;> omega

/-- While no sum overflows, the first loop accounts for the sum of the runtimes and stays
in range. -/
theorem part_loop_no_overflow (p stored : Int) (pre : List Int) (h0 : ∀ r ∈ pre, 0 ≤ r)
    (rest : List Int) (hrest : 0 ≤ rest.sum) :
    ∀ (i : Nat) (s : part_loop_state), no_overflow s (pre ++ rest) →
      no_overflow (part_loop p stored pre i s) rest ∧
      (part_loop p stored pre i s).accounted_ticks = s.accounted_ticks + pre.sum := by
  induction pre with
  | nil => intro i s h; exact ⟨h, by simp [part_loop]⟩
  | cons r pre ih =>
    intro i s h
    have hr := h0 r (List.mem_cons_self _ _)
    have hpre : ∀ x ∈ pre, 0 ≤ x := fun x hx => h0 x (List.mem_cons_of_mem _ hx)
    have hsum : 0 ≤ (pre ++ rest).sum := by
      rw [List.sum_append]
      have := sum_nonneg_of_nonneg pre hpre
      omega
    obtain ⟨hb, hno⟩ := part_loop_body_exact p stored i r s (pre ++ rest) hr hsum h
    obtain ⟨h1, h2⟩ := ih hpre (i + 1) (part_loop_body p stored i r s) hno
    rw [part_loop]
    refine ⟨h1, ?_⟩
    rw [h2, hb, List.sum_cons]
    simp only
    omega

/-- The parts that end at or before the position add their runtime to the offset and do not
set `current_part`. -/
theorem part_loop_current_before (p stored : Int) (rs : List Int) (h0 : ∀ r ∈ rs, 0 ≤ r) :
    ∀ (i : Nat) (s : part_loop_state), no_overflow s rs → s.accounted_ticks + rs.sum ≤ p →
      (part_loop p stored rs i s).current_part = s.current_part ∧
      (part_loop p stored rs i s).current_tick_offset = s.current_tick_offset + rs.sum := by
  induction rs with
  | nil => intro i s _ _; simp [part_loop]
  | cons r rs ih =>
    intro i s hno h
    have hr := h0 r (List.mem_cons_self _ _)
    have hrs : ∀ x ∈ rs, 0 ≤ x := fun x hx => h0 x (List.mem_cons_of_mem _ hx)
    have hs := sum_nonneg_of_nonneg rs hrs
    rw [List.sum_cons] at h
    obtain ⟨hb, hno'⟩ := part_loop_body_exact p stored i r s rs hr hs hno
    obtain ⟨hc, ho⟩ := ih hrs (i + 1) (part_loop_body p stored i r s) hno'
      (by rw [hb]; simp only; omega)
    rw [part_loop, hc, ho, hb, List.sum_cons]
    simp only
    rw [if_neg (by omega), if_pos ⟨by omega, by omega⟩]
    exact ⟨rfl, by omega⟩

/-- The parts that start after the position change neither `current_part` nor the offset. -/
theorem part_loop_current_after (p stored : Int) (rs : List Int) (h0 : ∀ r ∈ rs, 0 ≤ r) :
    ∀ (i : Nat) (s : part_loop_state), no_overflow s rs → p < s.accounted_ticks →
      (part_loop p stored rs i s).current_part = s.current_part ∧
      (part_loop p stored rs i s).current_tick_offset = s.current_tick_offset := by
  induction rs with
  | nil => intro i s _ _; simp [part_loop]
  | cons r rs ih =>
    intro i s hno h
    have hr := h0 r (List.mem_cons_self _ _)
    have hrs : ∀ x ∈ rs, 0 ≤ x := fun x hx => h0 x (List.mem_cons_of_mem _ hx)
    have hs := sum_nonneg_of_nonneg rs hrs
    obtain ⟨hb, hno'⟩ := part_loop_body_exact p stored i r s rs hr hs hno
    obtain ⟨hc, ho⟩ := ih hrs (i + 1) (part_loop_body p stored i r s) hno'
      (by rw [hb]; simp only; omega)
    rw [part_loop, hc, ho, hb]
    simp only
    rw [if_neg (by omega), if_neg (by omega)]
    exact ⟨rfl, rfl⟩

/-- The parts that do not hold the stored position do not set `last_part`. -/
theorem part_loop_last_outside (p stored : Int) (rs : List Int) (h0 : ∀ r ∈ rs, 0 ≤ r) :
    ∀ (i : Nat) (s : part_loop_state), no_overflow s rs →
      s.accounted_ticks + rs.sum ≤ stored ∨ stored < s.accounted_ticks →
      (part_loop p stored rs i s).last_part = s.last_part := by
  induction rs with
  | nil => intro i s _ _; simp [part_loop]
  | cons r rs ih =>
    intro i s hno h
    have hr := h0 r (List.mem_cons_self _ _)
    have hrs : ∀ x ∈ rs, 0 ≤ x := fun x hx => h0 x (List.mem_cons_of_mem _ hx)
    have hs := sum_nonneg_of_nonneg rs hrs
    rw [List.sum_cons] at h
    obtain ⟨hb, hno'⟩ := part_loop_body_exact p stored i r s rs hr hs hno
    rw [part_loop, ih hrs (i + 1) (part_loop_body p stored i r s) hno'
      (by rw [hb]; simp only; omega), hb]
    simp only
    rw [if_neg (by omega)]

/-- The part that holds the position becomes `current_part`, with the runtimes of the parts
before it as offset. -/
theorem part_loop_current (p stored : Int) (pre post : List Int) (r : Int)
    (h0 : ∀ x ∈ pre ++ r :: post, 0 ≤ x) (i : Nat) (s : part_loop_state)
    (hno : no_overflow s (pre ++ r :: post))
    (h1 : s.accounted_ticks + pre.sum ≤ p) (h2 : p < s.accounted_ticks + pre.sum + r) :
    (part_loop p stored (pre ++ r :: post) i s).current_part = some (i + pre.length) ∧
    (part_loop p stored (pre ++ r :: post) i s).current_tick_offset =
      s.current_tick_offset + pre.sum := by
  have hpre : ∀ x ∈ pre, 0 ≤ x := fun x hx => h0 x (List.mem_append_left _ hx)
  have hr : 0 ≤ r := h0 r (List.mem_append_right _ (List.mem_cons_self _ _))
  have hpost : ∀ x ∈ post, 0 ≤ x :=
    fun x hx => h0 x (List.mem_append_right _ (List.mem_cons_of_mem _ hx))
  have hps := sum_nonneg_of_nonneg post hpost
  obtain ⟨hno1, ha⟩ := part_loop_no_overflow p stored pre hpre (r :: post)
    (by rw [List.sum_cons]; omega) i s hno
  have hno0 : no_overflow s pre := by
    obtain ⟨a, b, c, d⟩ := hno
    rw [List.sum_append, List.sum_cons] at b
    exact ⟨a, by omega, c, d⟩
  obtain ⟨hc, ho⟩ := part_loop_current_before p stored pre hpre i s hno0 h1
  obtain ⟨hb, hno2⟩ := part_loop_body_exact p stored (i + pre.length) r
    (part_loop p stored pre i s) post hr hps hno1
  obtain ⟨hc', ho'⟩ := part_loop_current_after p stored post hpost (i + pre.length + 1)
    (part_loop_body p stored (i + pre.length) r (part_loop p stored pre i s)) hno2
    (by rw [hb]; simp only; omega)
  rw [part_loop_append, part_loop, hc', ho', hb]
  simp only
  rw [if_pos ⟨by omega, by omega⟩, if_neg (by omega)]
  exact ⟨rfl, ho⟩

/-- The part that holds the stored position becomes `last_part`. -/
theorem part_loop_last (p stored : Int) (pre post : List Int) (r : Int)
    (h0 : ∀ x ∈ pre ++ r :: post, 0 ≤ x) (i : Nat) (s : part_loop_state)
    (hno : no_overflow s (pre ++ r :: post))
    (h1 : s.accounted_ticks + pre.sum ≤ stored)
    (h2 : stored < s.accounted_ticks + pre.sum + r) :
    (part_loop p stored (pre ++ r :: post) i s).last_part = some (i + pre.length) := by
  have hpre : ∀ x ∈ pre, 0 ≤ x := fun x hx => h0 x (List.mem_append_left _ hx)
  have hr : 0 ≤ r := h0 r (List.mem_append_right _ (List.mem_cons_self _ _))
  have hpost : ∀ x ∈ post, 0 ≤ x :=
    fun x hx => h0 x (List.mem_append_right _ (List.mem_cons_of_mem _ hx))
  have hps := sum_nonneg_of_nonneg post hpost
  obtain ⟨hno1, ha⟩ := part_loop_no_overflow p stored pre hpre (r :: post)
    (by rw [List.sum_cons]; omega) i s hno
  obtain ⟨hb, hno2⟩ := part_loop_body_exact p stored (i + pre.length) r
    (part_loop p stored pre i s) post hr hps hno1
  rw [part_loop_append, part_loop, part_loop_last_outside p stored post hpost
    (i + pre.length + 1)
    (part_loop_body p stored (i + pre.length) r (part_loop p stored pre i s)) hno2
    (Or.inr (by rw [hb]; simp only; omega)), hb]
  simp only
  rw [if_pos ⟨by omega, by omega⟩]

/-- A position inside the total runtime lies in one part. -/
theorem exists_part (p : Int) (rs : List Int) (h0 : ∀ r ∈ rs, 0 ≤ r) :
    ∀ a : Int, a ≤ p → p < a + rs.sum →
      ∃ pre r post, rs = pre ++ r :: post ∧ a + pre.sum ≤ p ∧ p < a + pre.sum + r := by
  induction rs with
  | nil => intro a h1 h2; simp at h2; omega
  | cons r rs ih =>
    intro a h1 h2
    rw [List.sum_cons] at h2
    by_cases hr : p < a + r
    · exact ⟨[], r, rs, rfl, by simpa using h1, by simpa using hr⟩
    · obtain ⟨pre, x, post, hrs, h3, h4⟩ :=
        ih (fun y hy => h0 y (List.mem_cons_of_mem _ hy)) (a + r) (by omega) (by omega)
      refine ⟨r :: pre, x, post, by rw [hrs]; rfl, ?_, ?_⟩ <;>
      · rw [List.sum_cons]; omega

theorem split_at_part (rs : List Int) (k : Nat) (r : Int) (hk : rs[k]? = some r) :
    rs = rs.take k ++ r :: rs.drop (k + 1) := by
  obtain ⟨h, hr⟩ := List.getElem?_eq_some.mp hk
  conv_lhs => rw [← List.take_append_drop k rs, List.drop_eq_getElem_cons h, hr]

theorem no_overflow_start (rs : List Int) (hsum : rs.sum < 9223372036854775808) :
    no_overflow
      { accounted_ticks := 0, current_tick_offset := 0, current_part := none,
        last_part := none } rs :=
  ⟨le_refl _, by simpa using hsum, le_refl _, le_refl _⟩

theorem part_end_le_sum (rs : List Int) (h0 : ∀ x ∈ rs, 0 ≤ x) (k : Nat) (r : Int)
    (hk : rs[k]? = some r) : 0 ≤ part_start rs k ∧ part_start rs k + r ≤ rs.sum := by
  have hsplit := split_at_part rs k r hk
  have h1 := sum_nonneg_of_nonneg (rs.take k) (fun x hx => h0 x (List.mem_of_mem_take hx))
  have h2 := sum_nonneg_of_nonneg (rs.drop (k + 1))
    (fun x hx => h0 x (List.mem_of_mem_drop hx))
  have h3 : rs.sum = (rs.take k).sum + (r + (rs.drop (k + 1)).sum) := by
    conv_lhs => rw [hsplit, List.sum_append, List.sum_cons]
  unfold part_start
  omega

/-- The first loop finds the part that holds the position: when the runtimes add up to less
than `2^63`, for a part `k` with `part_start k <= p < part_start k + runtime` the loop ends
with `current_part = k` and `current_tick_offset = part_start k`, whatever the stored
position. -/
theorem part_loop_current_at (p stored : Int) (rs : List Int) (h0 : ∀ x ∈ rs, 0 ≤ x)
    (hsum : rs.sum < 9223372036854775808)
    (k : Nat) (r : Int) (hk : rs[k]? = some r)
    (h1 : part_start rs k ≤ p) (h2 : p < part_start rs k + r) :
    (part_loop p stored rs 0
      { accounted_ticks := 0, current_tick_offset := 0, current_part := none,
        last_part := none }).current_part = some k ∧
    (part_loop p stored rs 0
      { accounted_ticks := 0, current_tick_offset := 0, current_part := none,
        last_part := none }).current_tick_offset = part_start rs k := by
  have hsplit := split_at_part rs k r hk
  have hlen : (rs.take k).length = k := by
    rw [List.length_take]
    have := (List.getElem?_eq_some.mp hk).1
    omega
  have h := part_loop_current p stored (rs.take k) (rs.drop (k + 1)) r
    (by rw [← hsplit]; exact h0) 0
    { accounted_ticks := 0, current_tick_offset := 0, current_part := none,
      last_part := none }
    (by rw [← hsplit]; exact no_overflow_start rs hsum)
    (by simpa [part_start] using h1) (by simpa [part_start] using h2)
  rw [← hsplit, hlen] at h
  simpa [part_start] using h

/-- The first loop finds the part that holds the stored position. -/
theorem part_loop_last_at (p stored : Int) (rs : List Int) (h0 : ∀ x ∈ rs, 0 ≤ x)
    (hsum : rs.sum < 9223372036854775808)
    (j : Nat) (r : Int) (hj : rs[j]? = some r)
    (h1 : part_start rs j ≤ stored) (h2 : stored < part_start rs j + r) :
    (part_loop p stored rs 0
      { accounted_ticks := 0, current_tick_offset := 0, current_part := none,
        last_part := none }).last_part = some j := by
  have hsplit := split_at_part rs j r hj
  have hlen : (rs.take j).length = j := by
    rw [List.length_take]
    have := (List.getElem?_eq_some.mp hj).1
    omega
  have h := part_loop_last p stored (rs.take j) (rs.drop (j + 1)) r
    (by rw [← hsplit]; exact h0) 0
    { accounted_ticks := 0, current_tick_offset := 0, current_part := none,
      last_part := none }
    (by rw [← hsplit]; exact no_overflow_start rs hsum)
    (by simpa [part_start] using h1) (by simpa [part_start] using h2)
  rw [← hsplit, hlen] at h
  simpa using h

/-- A position inside the total runtime lies in some part. -/
theorem exists_part_index (p : Int) (rs : List Int) (h0 : ∀ r ∈ rs, 0 ≤ r) (hp0 : 0 ≤ p)
    (hp1 : p < part_start rs rs.length) :
    ∃ k r, rs[k]? = some r ∧ part_start rs k ≤ p ∧ p < part_start rs k + r := by
  obtain ⟨pre, r, post, hrs, h1, h2⟩ := exists_part p rs h0 0 hp0
    (by simpa [part_start] using hp1)
  refine ⟨pre.length, r, ?_, ?_, ?_⟩
  · rw [hrs, List.getElem?_append_right (le_refl _)]; simp
  · rw [hrs, part_start, List.take_left]; omega
  · rw [hrs, part_start, List.take_left]; omega

theorem runtimes_nonneg (children : List jf_menu_item_part)
    (h0 : ∀ c ∈ children, 0 ≤ c.runtime_ticks) :
    ∀ x ∈ children.map (fun c => c.runtime_ticks), 0 ≤ x := by
  intro x hx
  obtain ⟨c, hc, rfl⟩ := List.mem_map.mp hx
  exact h0 c hc

theorem mark_parts_no_update (n k : Nat) (e : progress_effect) (he : e ∈ mark_parts n k)
    (id : List Nat) (t : Int) : e ≠ .update_progress_remote id t := by
  simp only [mark_parts, List.mem_filterMap, List.mem_range] at he
  obtain ⟨i, _, hi⟩ := he
  split at hi
  · simp only [Option.some.injEq] at hi; rw [← hi]; simp
  · split at hi
    · simp only [Option.some.injEq] at hi; rw [← hi]; simp
    · simp at hi

theorem total_runtime (children : List jf_menu_item_part)
    (h : part_start (children.map fun c => c.runtime_ticks) children.length < 2 ^ 63) :
    (children.map fun c => c.runtime_ticks).sum < 9223372036854775808 := by
  rw [two_pow_63] at h
  have : (children.map fun c => c.runtime_ticks).take children.length =
      children.map fun c => c.runtime_ticks := by
    apply List.take_of_length_le
    rw [List.length_map]
  rw [part_start, this] at h
  exact h

/-- What `jf_now_playing_update_progress` does on a split item whose runtimes add up to less
than `2^63`, once the parts of the new and of the stored position are known. -/
theorem update_progress_split (np : jf_now_playing) (p : Int)
    (hn : 2 ≤ np.children.length) (h0 : ∀ c ∈ np.children, 0 ≤ c.runtime_ticks)
    (htotal :
      part_start (np.children.map fun c => c.runtime_ticks) np.children.length < 2 ^ 63)
    (k : Nat) (child : jf_menu_item_part) (hk : np.children[k]? = some child)
    (h1 : part_start (np.children.map fun c => c.runtime_ticks) k ≤ p)
    (h2 : p < part_start (np.children.map fun c => c.runtime_ticks) k + child.runtime_ticks) :
    (∃ marks,
      (jf_now_playing_update_progress np p).effects =
        .update_progress_remote child.id
          (p - part_start (np.children.map fun c => c.runtime_ticks) k) :: marks ∧
      ∀ e ∈ marks, ∀ id t, e ≠ .update_progress_remote id t) ∧
    (jf_now_playing_update_progress np p).now_playing = { np with playback_ticks := p } ∧
    (∀ j cj, np.children[j]? = some cj →
      part_start (np.children.map fun c => c.runtime_ticks) j ≤ np.playback_ticks →
      np.playback_ticks <
        part_start (np.children.map fun c => c.runtime_ticks) j + cj.runtime_ticks →
      (jf_now_playing_update_progress np p).defined = true ∧
      (jf_now_playing_update_progress np p).effects =
        .update_progress_remote child.id
            (p - part_start (np.children.map fun c => c.runtime_ticks) k) ::
          (if j = k then [] else mark_parts np.children.length k)) := by
  have hrs := runtimes_nonneg np.children h0
  have hsum := total_runtime np.children htotal
  have hkr : (np.children.map fun c => c.runtime_ticks)[k]? = some child.runtime_ticks := by
    rw [List.getElem?_map, hk]; rfl
  obtain ⟨hc, ho⟩ := part_loop_current_at p np.playback_ticks _ hrs hsum k _ hkr h1 h2
  obtain ⟨hs0, hs1⟩ := part_end_le_sum _ hrs k _ hkr
  have hw : wrap64 (p - part_start (np.children.map fun c => c.runtime_ticks) k) =
      p - part_start (np.children.map fun c => c.runtime_ticks) k :=
    wrap64_of_range _ (by omega) (by omega)
  have hnot : ¬ np.children.length ≤ 1 := by omega
  refine ⟨?_, ?_, ?_⟩
  · unfold jf_now_playing_update_progress
    simp only [if_neg hnot, hc, ho, hw, List.get?_eq_getElem?, hk]
    split
    · exact ⟨[], rfl, by simp⟩
    · split
      · exact ⟨[], rfl, by simp⟩
      · exact ⟨_, rfl, fun e he => mark_parts_no_update _ _ e he⟩
  · unfold jf_now_playing_update_progress
    simp only [if_neg hnot, hc, List.get?_eq_getElem?, hk]
    split
    · rfl
    · split <;> rfl
  · intro j cj hj hj1 hj2
    have hjr : (np.children.map fun c => c.runtime_ticks)[j]? = some cj.runtime_ticks := by
      rw [List.getElem?_map, hj]; rfl
    have hl := part_loop_last_at p np.playback_ticks _ hrs hsum j _ hjr hj1 hj2
    unfold jf_now_playing_update_progress
    simp only [if_neg hnot, hc, ho, hw, hl, List.get?_eq_getElem?, hk]
    by_cases hjk : j = k
    · simp [hjk]
    · simp [hjk]

theorem mem_mark_parts_played (n k i : Nat) :
    progress_effect.mark_played i ∈ mark_parts n k ↔ i < n ∧ i < k := by
  simp only [mark_parts, List.mem_filterMap, List.mem_range]
  constructor
  · rintro ⟨a, ha, h⟩
    split at h
    · simp only [Option.some.injEq, progress_effect.mark_played.injEq] at h
      subst h; exact ⟨ha, by assumption⟩
    · split at h <;> simp at h
  · rintro ⟨h1, h2⟩
    exact ⟨i, h1, by simp [h2]⟩

theorem mem_mark_parts_unplayed (n k i : Nat) :
    progress_effect.mark_unplayed i ∈ mark_parts n k ↔ i < n ∧ k < i := by
  simp only [mark_parts, List.mem_filterMap, List.mem_range]
  constructor
  · rintro ⟨a, ha, h⟩
    split at h
    · simp at h
    · split at h
      · simp only [Option.some.injEq, progress_effect.mark_unplayed.injEq] at h
        subst h; exact ⟨ha, by assumption⟩
      · simp at h
  · rintro ⟨h1, h2⟩
    refine ⟨i, h1, ?_⟩
    rw [if_neg (by omega), if_pos h2]

/-- C18 (amended): for a now-playing item with at most one child,
`jf_now_playing_update_progress` sends the item's own id with the position `p` and stores `p`.
For an item with two children or more, non-negative runtimes that add up to less than `2^63`
(no `int64_t` sum overflows) and `0 <= p <` the total runtime, there is exactly one child `k`
with `S_k <= p < S_k + r_k`; the one progress update sent is for that child, with the position
`p - S_k`, which lies in `[0, r_k)`, it is the first effect, and `p` is stored. -/
theorem progress_reported_against_right_part (np : jf_now_playing) (p : Int) :
    (np.children.length ≤ 1 →
      jf_now_playing_update_progress np p =
        { effects := [.update_progress_remote np.id p],
          now_playing := { np with playback_ticks := p }, defined := true }) ∧
    (2 ≤ np.children.length → (∀ c ∈ np.children, 0 ≤ c.runtime_ticks) →
      part_start (np.children.map fun c => c.runtime_ticks) np.children.length < 2 ^ 63 →
      0 ≤ p →
      p < part_start (np.children.map fun c => c.runtime_ticks) np.children.length →
      ∃ k child, np.children[k]? = some child ∧
        part_start (np.children.map fun c => c.runtime_ticks) k ≤ p ∧
        p < part_start (np.children.map fun c => c.runtime_ticks) k + child.runtime_ticks ∧
        (∀ j cj, np.children[j]? = some cj →
          part_start (np.children.map fun c => c.runtime_ticks) j ≤ p →
          p < part_start (np.children.map fun c => c.runtime_ticks) j + cj.runtime_ticks →
          j = k) ∧
        (∃ marks,
          (jf_now_playing_update_progress np p).effects =
            .update_progress_remote child.id
              (p - part_start (np.children.map fun c => c.runtime_ticks) k) :: marks ∧
          ∀ e ∈ marks, ∀ id t, e ≠ .update_progress_remote id t) ∧
        0 ≤ p - part_start (np.children.map fun c => c.runtime_ticks) k ∧
        p - part_start (np.children.map fun c => c.runtime_ticks) k < child.runtime_ticks ∧
        (jf_now_playing_update_progress np p).now_playing =
          { np with playback_ticks := p }) := by
  constructor
  · intro h
    simp [jf_now_playing_update_progress, h]
  · intro hn h0 htotal hp0 hp1
    have hrs := runtimes_nonneg np.children h0
    have hsum := total_runtime np.children htotal
    obtain ⟨k, r, hk, h1, h2⟩ := exists_part_index p _ hrs hp0
      (by rw [List.length_map]; exact hp1)
    rw [List.getElem?_map] at hk
    obtain ⟨child, hchild, hr⟩ := Option.map_eq_some'.mp hk
    subst hr
    obtain ⟨heff, hstore, _⟩ := update_progress_split np p hn h0 htotal k child hchild h1 h2
    refine ⟨k, child, hchild, h1, h2, ?_, heff, by omega, by omega, hstore⟩
    intro j cj hj hj1 hj2
    have hkr : (np.children.map fun c => c.runtime_ticks)[k]? = some child.runtime_ticks := by
      rw [List.getElem?_map, hchild]; rfl
    have hjr : (np.children.map fun c => c.runtime_ticks)[j]? = some cj.runtime_ticks := by
      rw [List.getElem?_map, hj]; rfl
    have ck := (part_loop_current_at p np.playback_ticks _ hrs hsum k _ hkr h1 h2).1
    have cj' := (part_loop_current_at p np.playback_ticks _ hrs hsum j _ hjr hj1 hj2).1
    rw [ck] at cj'
    exact (Option.some.inj cj').symm

/-- Witness of C18 (amended): position 35 of `sample_now_playing` (runtimes 10, 20, 30) lies
in the third part, at 5 ticks from its start. -/
theorem progress_reported_against_right_part_witness :
    (jf_now_playing_update_progress sample_now_playing 35).effects.head? =
      some (.update_progress_remote (cstr "p2") 5) ∧
    (jf_now_playing_update_progress sample_now_playing 35).now_playing.playback_ticks = 35 ∧
    ∃ k child, sample_now_playing.children[k]? = some child ∧
      part_start (sample_now_playing.children.map fun c => c.runtime_ticks) k ≤ 35 ∧
      35 < part_start (sample_now_playing.children.map fun c => c.runtime_ticks) k +
        child.runtime_ticks :=
  ⟨by decide, by decide,
    ((progress_reported_against_right_part sample_now_playing 35).2 (by decide) (by decide)
      (by decide) (by decide) (by decide)).imp
        fun _ h => h.imp fun _ h' => ⟨h'.1, h'.2.1, h'.2.2.1⟩⟩

/-- Counterexample to C18 as stated: on `sample_long_item` (runtimes `2^63 - 1`, 10, 10, all
non-negative) the position 5 lies in part 0, which starts at 0, and below the total runtime;
the update is sent for part 0 with the position -5, not 5: the sum of the ticks accounted
for overflows at the second part, the third part then counts as lying before the position
and its runtime is added to the offset. -/
theorem progress_reported_against_right_part_counterexample :
    2 ≤ sample_long_item.children.length ∧
    (∀ c ∈ sample_long_item.children, 0 ≤ c.runtime_ticks) ∧
    (0 : Int) ≤ 5 ∧
    5 < part_start (sample_long_item.children.map fun c => c.runtime_ticks)
      sample_long_item.children.length ∧
    part_start (sample_long_item.children.map fun c => c.runtime_ticks) 0 = 0 ∧
    (5 : Int) < part_start (sample_long_item.children.map fun c => c.runtime_ticks) 0 +
      9223372036854775807 ∧
    (jf_now_playing_update_progress sample_long_item 5).effects =
      [.update_progress_remote (cstr "p0") (-5)] ∧
    (jf_now_playing_update_progress sample_long_item 5).effects.head? ≠
      some (.update_progress_remote (cstr "p0")
        (5 - part_start (sample_long_item.children.map fun c => c.runtime_ticks) 0)) := by
  decide

/-- C19 (amended): for a now-playing item with two children or more and non-negative
runtimes that add up to less than `2^63` (no `int64_t` sum overflows), the new position `p`
and the stored position both in `[0, total runtime)`: the run is defined, and with `k` the part
of `p` and `j` the part of the stored position, if `j` and `k` differ the children marked
played are exactly those with index below `k` and the children marked unplayed exactly those
with index above `k` (so child `k` is marked neither way), and if `j = k` no child is
marked. -/
theorem moving_across_parts_remarks (np : jf_now_playing) (p : Int)
    (hn : 2 ≤ np.children.length) (h0 : ∀ c ∈ np.children, 0 ≤ c.runtime_ticks)
    (htotal :
      part_start (np.children.map fun c => c.runtime_ticks) np.children.length < 2 ^ 63)
    (hp0 : 0 ≤ p)
    (hp1 : p < part_start (np.children.map fun c => c.runtime_ticks) np.children.length)
    (hs0 : 0 ≤ np.playback_ticks)
    (hs1 : np.playback_ticks <
      part_start (np.children.map fun c => c.runtime_ticks) np.children.length) :
    ∃ k ck j cj, np.children[k]? = some ck ∧ np.children[j]? = some cj ∧
      part_start (np.children.map fun c => c.runtime_ticks) k ≤ p ∧
      p < part_start (np.children.map fun c => c.runtime_ticks) k + ck.runtime_ticks ∧
      part_start (np.children.map fun c => c.runtime_ticks) j ≤ np.playback_ticks ∧
      np.playback_ticks <
        part_start (np.children.map fun c => c.runtime_ticks) j + cj.runtime_ticks ∧
      (jf_now_playing_update_progress np p).defined = true ∧
      (j ≠ k →
        (∀ i, .mark_played i ∈ (jf_now_playing_update_progress np p).effects ↔ i < k) ∧
        (∀ i, .mark_unplayed i ∈ (jf_now_playing_update_progress np p).effects ↔
          k < i ∧ i < np.children.length)) ∧
      (j = k →
        ∀ i, .mark_played i ∉ (jf_now_playing_update_progress np p).effects ∧
          .mark_unplayed i ∉ (jf_now_playing_update_progress np p).effects) := by
  have hrs := runtimes_nonneg np.children h0
  obtain ⟨k, r, hk, h1, h2⟩ := exists_part_index p _ hrs hp0
    (by rw [List.length_map]; exact hp1)
  obtain ⟨j, r', hj, h3, h4⟩ := exists_part_index np.playback_ticks _ hrs hs0
    (by rw [List.length_map]; exact hs1)
  rw [List.getElem?_map] at hk hj
  obtain ⟨ck, hck, hr⟩ := Option.map_eq_some'.mp hk
  obtain ⟨cj, hcj, hr'⟩ := Option.map_eq_some'.mp hj
  subst hr hr'
  obtain ⟨hdef, heff⟩ :=
    (update_progress_split np p hn h0 htotal k ck hck h1 h2).2.2 j cj hcj h3 h4
  have hkn : k < np.children.length := (List.getElem?_eq_some.mp hck).1
  refine ⟨k, ck, j, cj, hck, hcj, h1, h2, h3, h4, hdef, ?_, ?_⟩
  · intro hjk
    rw [heff, if_neg hjk]
    constructor
    · intro i
      simp only [List.mem_cons, reduceCtorEq, false_or, mem_mark_parts_played]
      omega
    · intro i
      simp only [List.mem_cons, reduceCtorEq, false_or, mem_mark_parts_unplayed]
      omega
  · intro hjk i
    rw [heff, if_pos hjk]
    simp

/-- Witness of C19 (amended): `sample_now_playing` was last reported at tick 5, in the first
part; at position 35, in the third part, the first two parts are marked played. -/
theorem moving_across_parts_remarks_witness :
    (jf_now_playing_update_progress sample_now_playing 35).effects =
      [.update_progress_remote (cstr "p2") 5, .mark_played 0, .mark_played 1] ∧
    ∃ (k : Nat) (ck : jf_menu_item_part) (j : Nat) (cj : jf_menu_item_part),
      sample_now_playing.children[k]? = some ck ∧
      sample_now_playing.children[j]? = some cj ∧
      (jf_now_playing_update_progress sample_now_playing 35).defined = true :=
  ⟨by decide,
    (moving_across_parts_remarks sample_now_playing 35 (by decide) (by decide) (by decide)
      (by decide) (by decide) (by decide) (by decide)).imp fun _ h => h.imp fun _ h =>
        h.imp fun _ h => h.imp fun _ h => ⟨h.1, h.2.1, h.2.2.2.2.2.2.1⟩⟩

/-- Counterexample to C19 as stated: on `sample_long_parts` (three parts of `2^62` ticks,
stored position 0, in part 0) the new position `2^62 + 5` lies in part 1 and below the total
runtime, so part 0 should be marked played and part 2 unplayed; the sum
`accounted_ticks + runtime_ticks` overflows at part 1, no part is taken to hold the position,
`current_part` stays unassigned and nothing is sent or marked. -/
theorem moving_across_parts_remarks_counterexample :
    2 ≤ sample_long_parts.children.length ∧
    (∀ c ∈ sample_long_parts.children, 0 ≤ c.runtime_ticks) ∧
    (0 : Int) ≤ 4611686018427387909 ∧
    4611686018427387909 < part_start (sample_long_parts.children.map fun c => c.runtime_ticks)
      sample_long_parts.children.length ∧
    0 ≤ sample_long_parts.playback_ticks ∧
    sample_long_parts.playback_ticks <
      part_start (sample_long_parts.children.map fun c => c.runtime_ticks) 0 +
        4611686018427387904 ∧
    part_start (sample_long_parts.children.map fun c => c.runtime_ticks) 1 ≤
      4611686018427387909 ∧
    4611686018427387909 <
      part_start (sample_long_parts.children.map fun c => c.runtime_ticks) 1 +
        4611686018427387904 ∧
    (part_loop 4611686018427387909 0
      (sample_long_parts.children.map fun c => c.runtime_ticks) 0
      part_loop_start).current_part = none ∧
    (jf_now_playing_update_progress sample_long_parts 4611686018427387909).defined = false ∧
    progress_effect.mark_played 0 ∉
      (jf_now_playing_update_progress sample_long_parts 4611686018427387909).effects := by
  decide

/-! ### unassigned part indices, subtitle offset -/

/-- C21 on the code: `current_part` is assigned only when some part holds the new position and
`last_part` only when some part holds the stored one. On `sample_now_playing` (runtimes 10,
20, 30, total 60): at position 60, the end of the file, and at position -1 the first loop
leaves `current_part` unassigned and `children[current_part]` reads it; with the stored
position 99 and the new position 12 the update is sent for part 1 and then
`last_part == current_part` reads the unassigned `last_part`. In general, for runtimes that
add up to less than `2^63`, `current_part` stays unassigned for every position below 0 or at
or beyond the total runtime. -/
theorem part_index_read_unassigned :
    (part_loop 60 5 [10, 20, 30] 0 part_loop_start).current_part = none ∧
    (jf_now_playing_update_progress sample_now_playing 60).defined = false ∧
    (jf_now_playing_update_progress sample_now_playing 60).effects = [] ∧
    (jf_now_playing_update_progress sample_now_playing (-1)).defined = false ∧
    (part_loop 12 99 [10, 20, 30] 0 part_loop_start).current_part = some 1 ∧
    (part_loop 12 99 [10, 20, 30] 0 part_loop_start).last_part = none ∧
    (jf_now_playing_update_progress { sample_now_playing with playback_ticks := 99 }
      12).defined = false ∧
    (jf_now_playing_update_progress { sample_now_playing with playback_ticks := 99 }
      12).effects = [.update_progress_remote (cstr "p1") 2] ∧
    (∀ (rs : List Int) (p stored : Int), (∀ r ∈ rs, 0 ≤ r) → rs.sum < 2 ^ 63 →
      p < 0 ∨ rs.sum ≤ p →
      (part_loop p stored rs 0 part_loop_start).current_part = none) := by
  refine ⟨by decide, by decide, by decide, by decide, by decide, by decide, by decide,
    by decide, ?_⟩
  intro rs p stored h0 hsum hp
  rw [two_pow_63] at hsum
  rcases hp with hp | hp
  · exact (part_loop_current_after p stored rs h0 0 part_loop_start
      (no_overflow_start rs hsum) (by simpa [part_loop_start] using hp)).1
  · exact (part_loop_current_before p stored rs h0 0 part_loop_start
      (no_overflow_start rs hsum) (by simpa [part_loop_start] using hp)).1

theorem align_offset_loop_after (p : Int) (rs : List Int) (h0 : ∀ r ∈ rs, 0 ≤ r) (a : Int)
    (ha : 0 ≤ a) (hsum : a + rs.sum < 9223372036854775808) (h : p < a) :
    align_offset_loop p rs a = a := by
  cases rs with
  | nil => rfl
  | cons r rs =>
    have hr := h0 r (List.mem_cons_self _ _)
    have hs := sum_nonneg_of_nonneg rs (fun x hx => h0 x (List.mem_cons_of_mem _ hx))
    rw [List.sum_cons] at hsum
    simp only [align_offset_loop]
    rw [wrap64_of_range _ (by omega) (by omega), if_neg (by omega)]

/-- While no sum overflows, the two loops agree from any point where the offset of the
progress loop equals the ticks it has accounted for. -/
theorem part_loop_offset_eq_align (p stored : Int) (rs : List Int) (h0 : ∀ r ∈ rs, 0 ≤ r) :
    ∀ (i : Nat) (s : part_loop_state), no_overflow s rs →
      s.current_tick_offset = s.accounted_ticks →
      (part_loop p stored rs i s).current_tick_offset =
        align_offset_loop p rs s.accounted_ticks := by
  induction rs with
  | nil => intro i s _ h; simpa [part_loop, align_offset_loop] using h
  | cons r rs ih =>
    intro i s hno h
    have hr := h0 r (List.mem_cons_self _ _)
    have hrs : ∀ x ∈ rs, 0 ≤ x := fun x hx => h0 x (List.mem_cons_of_mem _ hx)
    have hs := sum_nonneg_of_nonneg rs hrs
    obtain ⟨hb, hno'⟩ := part_loop_body_exact p stored i r s rs hr hs hno
    have hrange := hno
    obtain ⟨r1, r2, r3, r4⟩ := hrange
    rw [List.sum_cons] at r2
    have w1 : wrap64 (s.accounted_ticks + r) = s.accounted_ticks + r :=
      wrap64_of_range _ (by omega) (by omega)
    by_cases h1 : s.accounted_ticks ≤ p
    · by_cases h2 : p < s.accounted_ticks + r
      · -- this part holds the position: the offset stays, here and in the parts after it
        rw [part_loop, (part_loop_current_after p stored rs hrs (i + 1)
          (part_loop_body p stored i r s) hno' (by rw [hb]; simp only; omega)).2, hb]
        simp only [align_offset_loop, w1]
        rw [if_neg (by omega), if_neg (by omega)]
        exact h
      · -- this part ends at or before the position: both loops add its runtime
        rw [part_loop, ih hrs (i + 1) (part_loop_body p stored i r s) hno'
          (by rw [hb]; simp only; rw [if_pos ⟨h1, h2⟩]; omega), hb]
        simp only [align_offset_loop, w1]
        rw [if_pos (by omega)]
    · rw [(part_loop_current_after p stored (r :: rs) h0 i s hno (by omega)).2, h,
        align_offset_loop_after p (r :: rs) h0 _ r1 hno.2.1 (by omega)]

/-- C22 (amended): for every list of non-negative child runtimes that add up to less than
`2^63` (no 64-bit sum overflows) and every position `p` (and whatever the stored position),
the `offset_ticks` computed by the loop of `jf_align_subtitle` equals the
`current_tick_offset` computed by the first loop of `jf_now_playing_update_progress`. -/
theorem subtitle_offset_agrees_with_progress (now_playing : jf_now_playing) (p : Int)
    (h0 : ∀ c ∈ now_playing.children, 0 ≤ c.runtime_ticks)
    (htotal : part_start (now_playing.children.map fun c => c.runtime_ticks)
      now_playing.children.length < 2 ^ 63) :
    align_subtitle_offset now_playing p =
      (part_loop p now_playing.playback_ticks
        (now_playing.children.map fun c => c.runtime_ticks) 0
        { accounted_ticks := 0, current_tick_offset := 0, current_part := none,
          last_part := none }).current_tick_offset ∧
    ∀ (rs : List Int) (stored : Int), (∀ r ∈ rs, 0 ≤ r) → rs.sum < 2 ^ 63 →
      align_offset_loop p rs 0 =
        (part_loop p stored rs 0 part_loop_start).current_tick_offset := by
  constructor
  · exact (part_loop_offset_eq_align p now_playing.playback_ticks _
      (runtimes_nonneg now_playing.children h0) 0
      { accounted_ticks := 0, current_tick_offset := 0, current_part := none,
        last_part := none }
      (no_overflow_start _ (total_runtime now_playing.children htotal)) rfl).symm
  · intro rs stored hrs hsum
    rw [two_pow_63] at hsum
    exact (part_loop_offset_eq_align p stored rs hrs 0 part_loop_start
      (no_overflow_start rs hsum) rfl).symm

/-- Witness of C22 (amended): at position 35 of `sample_now_playing` both loops give the
offset 30. -/
theorem subtitle_offset_agrees_with_progress_witness :
    align_subtitle_offset sample_now_playing 35 = 30 ∧
    (part_loop 35 sample_now_playing.playback_ticks
      (sample_now_playing.children.map fun c => c.runtime_ticks) 0
      { accounted_ticks := 0, current_tick_offset := 0, current_part := none,
        last_part := none }).current_tick_offset = 30 :=
  ⟨by decide,
    ((subtitle_offset_agrees_with_progress sample_now_playing 35 (by decide)
      (by decide)).1.symm).trans (by decide)⟩

/-- Counterexample to C22 as stated: on the non-negative runtimes `2^63 - 1`, 10, 10 of
`sample_long_item` and the position 5, the loop of `jf_align_subtitle` gives the offset 0 and
the loop of `jf_now_playing_update_progress` gives 10: its sum of accounted ticks overflows
at the second part and the third part is then added to the offset. -/
theorem subtitle_offset_agrees_with_progress_counterexample :
    (∀ c ∈ sample_long_item.children, 0 ≤ c.runtime_ticks) ∧
    align_subtitle_offset sample_long_item 5 = 0 ∧
    (part_loop 5 sample_long_item.playback_ticks
      (sample_long_item.children.map fun c => c.runtime_ticks) 0
      { accounted_ticks := 0, current_tick_offset := 0, current_part := none,
        last_part := none }).current_tick_offset = 10 ∧
    align_subtitle_offset sample_long_item 5 ≠
      (part_loop 5 sample_long_item.playback_ticks
        (sample_long_item.children.map fun c => c.runtime_ticks) 0
        { accounted_ticks := 0, current_tick_offset := 0, current_part := none,
          last_part := none }).current_tick_offset := by
  decide

end Main

namespace Net

/-! ## `net.c`: the mutex on the return paths of the callback -/

/-- C23 on the code: the return taken in the PARSER_ERROR state leaves the mutex locked. On
`error_tb` the call returns 0 with `s_tb.mut` still held, and a following
`jf_thread_buffer_clear_error` or `jf_thread_buffer_wait_parsing_done` does not get past its
`pthread_mutex_lock`; the step that takes this return changes nothing of the channel, while
the return at the end of the loop releases the mutex. -/
theorem mutex_left_locked_on_parser_error :
    (∃ res, jf_thread_buffer_callback sample_codes 8 4 parser_ok [1, 2] 1 2 jf_reply_new
        error_tb = some res ∧
      res.ret = 0 ∧ res.s_tb.mut_locked = true ∧
      jf_thread_buffer_clear_error res.s_tb = none ∧
      ∀ fuel parser, jf_thread_buffer_wait_parsing_done fuel parser res.s_tb = none) ∧
    (∀ k D payload real_size c ev c', c.pc = .inner → c.s_tb.state = .PARSER_ERROR →
      callback_step k D payload real_size c = some (ev, c') →
      c'.pc = .returned 0 ∧ c'.s_tb = c.s_tb) ∧
    (∀ k D payload real_size c ev c', c.pc = .outer → ¬ c.written_data < real_size →
      callback_step k D payload real_size c = some (ev, c') →
      c'.pc = .returned c.written_data ∧ c'.s_tb.mut_locked = false) := by
  refine ⟨⟨_, rfl, by decide, by decide, by decide, ?_⟩, ?_, ?_⟩
  · intro fuel parser
    rfl
  · intro k D payload real_size c ev c' hpc hst h
    simp only [callback_step, hpc, hst, reduceCtorEq, if_false, if_true, Option.some.injEq,
      Prod.mk.injEq] at h
    rw [← h.2]
    exact ⟨rfl, rfl⟩
  · intro k D payload real_size c ev c' hpc hw h
    simp only [callback_step, hpc, if_neg hw, Option.some.injEq, Prod.mk.injEq] at h
    rw [← h.2]
    exact ⟨rfl, rfl⟩

end Net

namespace Network

/-! ## `network.c`: bounds of the older deposit routine -/

/-- C24 on the code: when `D` bytes or more of the payload remain, a deposit of the older
`jf_thread_buffer_callback` takes `chunk_size = D` and writes the NUL at index `D` of
`s_tb.data`, one past the last index `D - 1`. With a slot of four bytes and a payload of six,
the first deposit writes the indices 0 to 4. When fewer than `D` bytes remain every index
written is below `D`. -/
theorem older_deposit_writes_past_slot :
    (∃ res, jf_thread_buffer_callback 4 20 parser_consumes [1, 2, 3, 4, 5, 6] 1 6
        sample_slot = some res ∧
      res.ret = 6 ∧ res.writes = [[0, 1, 2, 3, 4], [0, 1, 2]]) ∧
    sample_slot.data.length = 4 ∧
    (4 : Nat) ∈ send_data_indices 4 6 0 ∧ ¬ ((4 : Nat) < 4) ∧
    (∀ D real_size written_data, D ≤ real_size - written_data →
      D ∈ send_data_indices D real_size written_data) ∧
    (∀ D real_size written_data, real_size - written_data < D →
      ∀ i ∈ send_data_indices D real_size written_data, i < D) := by
  refine ⟨⟨_, rfl, by decide, by decide⟩, by decide, by decide, by decide, ?_, ?_⟩
  · intro D real_size written_data h
    have hc : chunk_size D real_size written_data = D := by
      unfold chunk_size
      split <;> omega
    simp [send_data_indices, hc]
  · intro D real_size written_data h i hi
    have hc : chunk_size D real_size written_data = real_size - written_data := by
      unfold chunk_size
      rw [if_pos (by omega)]
    simp only [send_data_indices, hc, List.mem_append, List.mem_range,
      List.mem_singleton] at hi
    omega

end Network

end Jftui
